import Mathlib

/-! WAV reader: a shallow embedding of `wav_reader.c`.

The file descriptor is modelled as the bytes of a regular file together with
the cursor; every C object written through a pointer is passed in and handed
back explicitly, so that a short `read` leaves the stale bytes of the object
in place exactly as the C code does.  Behaviour that C leaves undefined (a
store outside `name[MAX_STR_LEN]`, a division by zero) is a `Fault`.
-/

namespace WavReader

/-- One byte of the file or of memory (`unsigned char`). -/
abbrev Byte := Fin 256

/-- `#define HEAD_ID_LEN 4` -/
def HEAD_ID_LEN : Nat := 4
/-- `#define HEAD_SIZE_LEN 4` -/
def HEAD_SIZE_LEN : Nat := 4
/-- `#define MS_PMC_TAG 0x0001` -/
def MS_PMC_TAG : Nat := 1
/-- `#define MAX_STR_LEN 256` -/
def MAX_STR_LEN : Nat := 256

/-- The four characters of the string literal "RIFF" (its terminating NUL is implicit). -/
def RIFF : List Byte := [82, 73, 70, 70]
/-- The four characters of the string literal "WAVE". -/
def WAVE : List Byte := [87, 65, 86, 69]
/-- The four characters of the string literal "fmt ". -/
def FMT : List Byte := [102, 109, 116, 32]
/-- The four characters of the string literal "LIST". -/
def LIST : List Byte := [76, 73, 83, 84]
/-- The four characters of the string literal "data". -/
def DATA : List Byte := [100, 97, 116, 97]
/-- The four characters of the string literal "INFO". -/
def INFO : List Byte := [73, 78, 70, 79]

/-- The in-memory (little-endian) representation of an unsigned integer of `w` bytes. -/
def toLE : Nat → Nat → List Byte
  | 0, _ => []
  | w + 1, v => ⟨v % 256, Nat.mod_lt v (by decide)⟩ :: toLE w (v / 256)

/-- The unsigned integer whose little-endian representation is the given bytes. -/
def ofLE : List Byte → Nat
  | [] => 0
  | b :: bs => b.val + 256 * ofLE bs

/-- An open descriptor on a regular file: the file's bytes and the file offset. -/
structure Fd where
  data : List Byte
  pos : Nat
deriving DecidableEq, Repr

/-- The next `n` bytes at the file offset, fewer when the file ends before. -/
def Fd.next (fd : Fd) (n : Nat) : List Byte :=
  (fd.data.drop fd.pos).take n

/-- The unsigned little-endian integer held by the `w` bytes that start `off` bytes after
the file offset. -/
def Fd.field (fd : Fd) (off w : Nat) : Nat :=
  ofLE ((fd.data.drop (fd.pos + off)).take w)

/-- Result of one `read(2)`: the return value, the buffer afterwards, the descriptor afterwards. -/
structure ReadResult where
  n : Int
  buf : List Byte
  fd : Fd
deriving DecidableEq, Repr

/-- `read(fd, buf, count)` on a regular file: transfers the bytes from the offset up to
`count` of them or the end of the file, stores them at the front of `buf` (the rest of
`buf` keeps its content), advances the offset by the number transferred and returns it
(0 at or past the end of the file). -/
def read (fd : Fd) (buf : List Byte) (count : Nat) : ReadResult :=
  let got := fd.next count
  { n := (got.length : Int), buf := got ++ buf.drop got.length,
    fd := { fd with pos := fd.pos + got.length } }

/-- `lseek(fd, offset, SEEK_CUR)`: the offset may move past the end of the file; a
negative resulting offset is refused (EINVAL) and leaves the offset where it was.
`off_t` is 64 bits wide, far above any offset reachable here. -/
def lseek (fd : Fd) (offset : Int) : Fd :=
  if (fd.pos : Int) + offset < 0 then fd else { fd with pos := ((fd.pos : Int) + offset).toNat }

/-- Result of reading an unsigned integer field through a pointer to it. -/
structure ReadUInt where
  n : Int
  val : Nat
  fd : Fd
deriving DecidableEq, Repr

/-- `read(fd, &field, w)` for an unsigned little-endian field of `w` bytes that
currently holds `old`: the bytes transferred replace the low-order bytes of the field. -/
def readUInt (fd : Fd) (old : Nat) (w : Nat) : ReadUInt :=
  let r := read fd (toLE w old) w
  { n := r.n, val := ofLE r.buf, fd := r.fd }

/-- `strncmp(s1, s2, n)`: compares at most `n` characters as unsigned chars and stops
after a NUL common to both; the end of a list stands for the terminating NUL. -/
def strncmp : List Byte → List Byte → Nat → Int
  | _, _, 0 => 0
  | s1, s2, n + 1 =>
    let c1 := s1.headD 0
    let c2 := s2.headD 0
    if c1 ≠ c2 then (c1.val : Int) - (c2.val : Int)
    else if c1 = 0 then 0
    else strncmp s1.tail s2.tail n

/-- `struct riff_header { uchar id[4]; uint size; }` -/
structure riff_header where
  id : List Byte
  size : Nat
deriving DecidableEq, Repr

/-- `struct wav_fmt` -/
structure wav_fmt where
  wFormatTag : Nat
  wChannels : Nat
  dwSamplesPerSec : Nat
  dwAvgBytesPerSec : Nat
  wBlockAlign : Nat
  nBitsPerSample : Nat
deriving DecidableEq, Repr

/-- `struct riff_list_info { char name[MAX_STR_LEN]; }` -/
structure riff_list_info where
  name : List Byte
deriving DecidableEq, Repr

/-- Undefined behaviour of the C program. -/
inductive Fault where
  /-- an access to `name[index]` with `index` outside the array -/
  | outOfBounds (index : Nat)
  /-- an unsigned division whose divisor is zero -/
  | divByZero
deriving DecidableEq, Repr

/-- Result of `readHeader` and `readHeaderTest`. -/
structure HeaderResult where
  ret : Int
  header : riff_header
  fd : Fd
deriving DecidableEq, Repr

/-- `int readHeader(int fd, riff_header *header)` -/
def readHeader (fd : Fd) (header : riff_header) : HeaderResult :=
  let r1 := read fd header.id HEAD_ID_LEN
  if r1.n ≤ 0 then
    { ret := -2, header := { header with id := r1.buf }, fd := r1.fd }
  else
    let r2 := readUInt r1.fd header.size HEAD_SIZE_LEN
    if r2.n ≤ 0 then
      { ret := -2, header := { id := r1.buf, size := r2.val }, fd := r2.fd }
    else
      { ret := 0, header := { id := r1.buf, size := r2.val }, fd := r2.fd }

/-- `int readHeaderTest(int fd, riff_header *header, char *str)` -/
def readHeaderTest (fd : Fd) (header : riff_header) (str : List Byte) : HeaderResult :=
  let r := readHeader fd header
  if r.ret < 0 ∨ strncmp r.header.id str HEAD_ID_LEN ≠ 0 then
    { r with ret := -1 }
  else
    { r with ret := 0 }

/-- The loop of `strCleanZeros` from index `i` with `k` iterations left; `none` when
`str[i]` is read outside the array. -/
def strCleanZerosLoop : Nat → Nat → List Byte → Option (List Byte)
  | 0, _, str => some str
  | k + 1, i, str =>
    match str[i]? with
    | none => none
    | some c => strCleanZerosLoop k (i + 1) (if c = 0 then str.set i 32 else str)

/-- `void strCleanZeros(char *str, uint len)`: the loop runs `len` times from index 0. -/
def strCleanZeros (str : List Byte) (len : Nat) : Option (List Byte) :=
  strCleanZerosLoop len 0 str

/-- What `strCleanZeros` turns one character into: a NUL becomes a space (0x20). -/
def cleanZero (c : Byte) : Byte :=
  if c = 0 then 32 else c

/-- The C string held in a character array: the characters before the first NUL. -/
def cstr (buf : List Byte) : List Byte :=
  buf.takeWhile (fun c => c ≠ 0)

/-- Result of `processFmtSegment`. -/
structure FmtResult where
  ret : Int
  wavFmtInfo : wav_fmt
  fd : Fd
deriving DecidableEq, Repr

/-- `int processFmtSegment(int fd, riff_header *header, wav_fmt *wavFmtInfo)` -/
def processFmtSegment (fd : Fd) (_header : riff_header) (wavFmtInfo : wav_fmt) : FmtResult :=
  let r1 := readUInt fd wavFmtInfo.wFormatTag 2
  let r2 := readUInt r1.fd wavFmtInfo.wChannels 2
  let r3 := readUInt r2.fd wavFmtInfo.dwSamplesPerSec 4
  let r4 := readUInt r3.fd wavFmtInfo.dwAvgBytesPerSec 4
  let r5 := readUInt r4.fd wavFmtInfo.wBlockAlign 2
  if r1.val = MS_PMC_TAG then
    let r6 := readUInt r5.fd wavFmtInfo.nBitsPerSample 2
    { ret := 0,
      wavFmtInfo := { wFormatTag := r1.val, wChannels := r2.val, dwSamplesPerSec := r3.val,
                      dwAvgBytesPerSec := r4.val, wBlockAlign := r5.val,
                      nBitsPerSample := r6.val },
      fd := r6.fd }
  else
    { ret := 0,
      wavFmtInfo := { wFormatTag := r1.val, wChannels := r2.val, dwSamplesPerSec := r3.val,
                      dwAvgBytesPerSec := r4.val, wBlockAlign := r5.val,
                      nBitsPerSample := wavFmtInfo.nBitsPerSample },
      fd := r5.fd }

/-- Result of `processLISTSegment`. -/
structure ListResult where
  ret : Int
  riffListInfo : riff_list_info
  fd : Fd
deriving DecidableEq, Repr

/-- `uint infoSize = header->size - 4;` for the `uint` field `size`: the unsigned 32-bit
subtraction wraps around to `size + 2^32 - 4` when `size` is below 4. -/
def infoSizeOf (header : riff_header) : Nat :=
  if 4 ≤ header.size then header.size - 4 else header.size + 2 ^ 32 - 4

/-- `int processLISTSegment(int fd, riff_header *header, riff_list_info *riffListInfo)`;
`subtype` is the indeterminate initial content of the local array `char subtype[4]`.
A fault is raised where the C code accesses `name` outside its `MAX_STR_LEN` bytes:
in the `read` that stores more than `MAX_STR_LEN` bytes, in `strCleanZeros`, or in the
store of the terminator. -/
def processLISTSegment (fd : Fd) (header : riff_header) (riffListInfo : riff_list_info)
    (subtype : List Byte) : Except Fault ListResult :=
  let r := read fd subtype 4
  if strncmp r.buf INFO 4 = 0 then
    let infoSize := infoSizeOf header
    let r2 := read r.fd riffListInfo.name infoSize
    if (MAX_STR_LEN : Int) < r2.n then .error (.outOfBounds MAX_STR_LEN)
    else
      match strCleanZeros r2.buf infoSize with
      | none => .error (.outOfBounds r2.buf.length)
      | some name =>
        if infoSize < MAX_STR_LEN then
          .ok { ret := 0, riffListInfo := { name := name.set infoSize 0 }, fd := r2.fd }
        else .error (.outOfBounds infoSize)
  else
    .ok { ret := 0, riffListInfo := riffListInfo, fd := r.fd }

/-- Result of `processDataSegment`. -/
structure DataResult where
  ret : Int
  dataLength : Nat
  fd : Fd
deriving DecidableEq, Repr

/-- `int processDataSegment(int fd, riff_header *header, uint *dataLength)` -/
def processDataSegment (fd : Fd) (header : riff_header) (_dataLength : Nat) : DataResult :=
  let dataLength := header.size
  { ret := 0, dataLength := dataLength, fd := lseek fd (dataLength : Int) }

/-- The objects of `main` that the chunk loop works on: the descriptor, `tempHeader`,
`wavFmtInfo`, `riffListInfo`, `dataLength`, and the indeterminate content of the stack
slot that `processLISTSegment` uses for `subtype`. -/
structure State where
  wavFd : Fd
  tempHeader : riff_header
  wavFmtInfo : wav_fmt
  riffListInfo : riff_list_info
  dataLength : Nat
  subtype : List Byte
deriving DecidableEq, Repr

/-- The body of the `while` loop of `main`, entered after `readHeader` returned a
non-negative value and filled `tempHeader`. -/
def dispatch (s : State) : Except Fault State :=
  if strncmp s.tempHeader.id FMT HEAD_ID_LEN = 0 then
    let r := processFmtSegment s.wavFd s.tempHeader s.wavFmtInfo
    .ok { s with wavFmtInfo := r.wavFmtInfo, wavFd := r.fd }
  else if strncmp s.tempHeader.id LIST HEAD_ID_LEN = 0 then
    match processLISTSegment s.wavFd s.tempHeader s.riffListInfo s.subtype with
    | .error e => .error e
    | .ok r => .ok { s with riffListInfo := r.riffListInfo, wavFd := r.fd }
  else if strncmp s.tempHeader.id DATA HEAD_ID_LEN = 0 then
    let r := processDataSegment s.wavFd s.tempHeader s.dataLength
    .ok { s with dataLength := r.dataLength, wavFd := r.fd }
  else
    .ok { s with wavFd := lseek s.wavFd (s.tempHeader.size : Int) }

/-- The `while ((readHeader(wavFd, &tempHeader)) >= 0) { ... }` loop of `main`, run for
at most `fuel` evaluations of its condition; `none` when the fuel is used up. -/
def chunkLoopFuel : Nat → State → Option (Except Fault State)
  | 0, _ => none
  | fuel + 1, s =>
    let r := readHeader s.wavFd s.tempHeader
    if r.ret ≥ 0 then
      match dispatch { s with wavFd := r.fd, tempHeader := r.header } with
      | .error e => some (.error e)
      | .ok s1 => chunkLoopFuel fuel s1
    else
      some (.ok { s with wavFd := r.fd, tempHeader := r.header })

/-- The chunk loop of `main`; every iteration but the last consumes at least one byte
of the file, so one evaluation of the condition per remaining byte and one more suffice. -/
def chunkLoop (s : State) : Option (Except Fault State) :=
  chunkLoopFuel (s.wavFd.data.length - s.wavFd.pos + 1) s

/-- `uint bytesPerSample = nBitsPerSample / 8; uint calcSeconds = ((dataLength /
bytesPerSample) / wChannels) / dwSamplesPerSec;` -/
def calcSeconds (wavFmtInfo : wav_fmt) (dataLength : Nat) : Except Fault Nat :=
  let bytesPerSample := wavFmtInfo.nBitsPerSample / 8
  if bytesPerSample = 0 then .error .divByZero
  else if wavFmtInfo.wChannels = 0 then .error .divByZero
  else if wavFmtInfo.dwSamplesPerSec = 0 then .error .divByZero
  else .ok (((dataLength / bytesPerSample) / wavFmtInfo.wChannels) / wavFmtInfo.dwSamplesPerSec)

/-- What `main` returns and leaves behind: the return value, the objects of `main`, and
the printed duration when `main` got that far. -/
structure Exit where
  code : Int
  st : State
  seconds : Option Nat
deriving DecidableEq, Repr

/-- `int main(int argc, char *argv[])` from the point where the file has been opened:
`file` is its content and `init` holds the indeterminate initial values of the locals
(`init.wavFd` is not used). -/
def main (file : List Byte) (init : State) : Option (Except Fault Exit) :=
  let r1 := readHeaderTest { data := file, pos := 0 } init.tempHeader RIFF
  if r1.ret < 0 then
    some (.ok { code := -2, st := { init with wavFd := r1.fd, tempHeader := r1.header },
                seconds := none })
  else
    let r2 := readHeaderTest r1.fd r1.header WAVE
    if r2.ret < 0 then
      some (.ok { code := -2, st := { init with wavFd := r2.fd, tempHeader := r2.header },
                  seconds := none })
    else
      let fd3 := lseek r2.fd (-4)
      match chunkLoop { init with wavFd := fd3, tempHeader := r2.header } with
      | none => none
      | some (.error e) => some (.error e)
      | some (.ok s) =>
        match calcSeconds s.wavFmtInfo s.dataLength with
        | .error e => some (.error e)
        | .ok secs => some (.ok { code := 0, st := s, seconds := some secs })

/-- Outcome of a check of the form type: whether the stream is accepted, and the
descriptor afterwards. -/
structure FormCheck where
  accepted : Bool
  fd : Fd
deriving DecidableEq, Repr

/-- The form-type check as `main` does it: `readHeaderTest(wavFd, &tempHeader, "WAVE")`,
rejected when negative, followed by `lseek(wavFd, -4, SEEK_CUR)`. -/
def checkWaveByHeader (fd : Fd) (header : riff_header) : FormCheck :=
  let r := readHeaderTest fd header WAVE
  if r.ret < 0 then { accepted := false, fd := r.fd }
  else { accepted := true, fd := lseek r.fd (-4) }

/-- The form-type check in the words of the specification: read exactly 4 bytes and
require them to be "WAVE". -/
def checkWaveDirect (fd : Fd) : FormCheck :=
  let r := read fd [0, 0, 0, 0] 4
  { accepted := decide (r.n = 4 ∧ r.buf = WAVE), fd := r.fd }

/-- What a run finds after an access outside `name`, which C leaves undefined: the objects
of `main` as the stray stores left them, and how many bytes the `read` into `name` managed to
transfer. Neither is fixed by the source, so the walk past such an access is considered for
every `Clobber`; the descriptor number and the flow of control are taken to survive. -/
structure Clobber where
  objects : State → State
  transferred : State → Nat

/-- The loop body of `main` followed past an access outside `name`: where `dispatch` is
defined this is its result; otherwise `processLISTSegment` has issued its two `read`s and
returned 0, so the cursor stands after the 4 subtype bytes and the bytes transferred into
`name`, at most those the file had left, and the objects of `main` are what the `Clobber`
says. -/
def dispatchPast (c : Clobber) (s : State) : State :=
  match dispatch s with
  | .ok s1 => s1
  | .error _ =>
    let r := read s.wavFd s.subtype 4
    let got := min (c.transferred s) (r.fd.next (infoSizeOf s.tempHeader)).length
    { c.objects s with wavFd := { r.fd with pos := r.fd.pos + got } }

/-- The `while` loop of `main` followed past accesses outside `name`, run for at most
`fuel` evaluations of its condition; `none` when the fuel is used up. -/
def chunkLoopPastFuel (c : Clobber) : Nat → State → Option State
  | 0, _ => none
  | fuel + 1, s =>
    let r := readHeader s.wavFd s.tempHeader
    if r.ret ≥ 0 then
      chunkLoopPastFuel c fuel (dispatchPast c { s with wavFd := r.fd, tempHeader := r.header })
    else
      some { s with wavFd := r.fd, tempHeader := r.header }

/-- The chunk loop of `main` followed past accesses outside `name`, with one evaluation of
the condition per byte left at the cursor and one more. -/
def chunkLoopPast (c : Clobber) (s : State) : Option State :=
  chunkLoopPastFuel c (s.wavFd.data.length - s.wavFd.pos + 1) s

/-- The bytes of a minimal PCM file: "RIFF", the RIFF size, "WAVE", a `fmt ` chunk of
declared size 16 with format tag 1, and a `data` chunk of declared size `n` followed by
`payload`. -/
def minimalPcmFile (riffSize ch rate avg align bps n : Nat) (payload : List Byte) : List Byte :=
  RIFF ++ toLE 4 riffSize ++ WAVE ++ FMT ++ toLE 4 16 ++ toLE 2 1 ++ toLE 2 ch ++ toLE 4 rate ++
    toLE 4 avg ++ toLE 2 align ++ toLE 2 bps ++ DATA ++ toLE 4 n ++ payload

/-! ## Basic facts about the file model -/

theorem toLE_length (w v : Nat) : (toLE w v).length = w := by
  induction w generalizing v with
  | zero => rfl
  | succ w ih => simp [toLE, ih]

theorem ofLE_toLE (w v : Nat) : ofLE (toLE w v) = v % 256 ^ w := by
  induction w generalizing v with
  | zero => simp [toLE, ofLE, Nat.mod_one]
  | succ w ih =>
    simp only [toLE, ofLE, ih]
    rw [pow_succ, Nat.mul_comm (256 ^ w) 256, Nat.mod_mul]

theorem ofLE_toLE_of_lt (w v : Nat) (h : v < 256 ^ w) : ofLE (toLE w v) = v := by
  rw [ofLE_toLE, Nat.mod_eq_of_lt h]

theorem next_length (fd : Fd) (n : Nat) :
    (fd.next n).length = min n (fd.data.length - fd.pos) := by
  simp [Fd.next]

theorem next_length_of_le (fd : Fd) (n : Nat) (h : fd.pos + n ≤ fd.data.length) :
    (fd.next n).length = n := by
  rw [next_length]; omega

theorem next_eq_nil_of_le (fd : Fd) (n : Nat) (h : fd.data.length ≤ fd.pos) :
    fd.next n = [] := by
  simp [Fd.next, List.drop_eq_nil_of_le h]

/-- Splitting the next `a + b` bytes into the next `a` and the `b` after them. -/
theorem next_add (fd : Fd) (a b : Nat) :
    fd.next (a + b) = fd.next a ++ Fd.next { fd with pos := fd.pos + a } b := by
  simp only [Fd.next]
  rw [← List.drop_drop, List.take_add]

/-- A `read` that finds all `n` bytes it asks for. -/
theorem read_full (fd : Fd) (buf : List Byte) (n : Nat) (h : fd.pos + n ≤ fd.data.length) :
    read fd buf n = { n := (n : Int), buf := fd.next n ++ buf.drop n,
                      fd := { fd with pos := fd.pos + n } } := by
  simp only [read, next_length_of_le fd n h]

/-- A `read` at or past the end of the file transfers nothing. -/
theorem read_eof (fd : Fd) (buf : List Byte) (n : Nat) (h : fd.data.length ≤ fd.pos) :
    read fd buf n = { n := 0, buf := buf, fd := fd } := by
  simp [read, next_eq_nil_of_le fd n h]

/-- Reading an integer field whose `w` bytes are all present decodes exactly them. -/
theorem readUInt_full (fd : Fd) (old w : Nat) (h : fd.pos + w ≤ fd.data.length) :
    readUInt fd old w = { n := (w : Int), val := ofLE (fd.next w),
                          fd := { fd with pos := fd.pos + w } } := by
  have hl : (toLE w old).length ≤ w := by rw [toLE_length]
  simp [readUInt, read_full fd _ w h, List.drop_eq_nil_of_le hl]

theorem readHeader_eof (fd : Fd) (header : riff_header) (h : fd.data.length ≤ fd.pos) :
    readHeader fd header = { ret := -2, header := header, fd := fd } := by
  simp [readHeader, read_eof fd _ _ h]

/-- A header whose 8 bytes are all present is read whole. -/
theorem readHeader_full (fd : Fd) (header : riff_header) (h : fd.pos + 8 ≤ fd.data.length)
    (hid : header.id.length = 4) :
    readHeader fd header =
      { ret := 0, header := { id := fd.next 4, size := fd.field 4 4 },
        fd := { fd with pos := fd.pos + 8 } } := by
  have h1 : fd.pos + 4 ≤ fd.data.length := by omega
  have hd : header.id.drop 4 = [] := List.drop_eq_nil_of_le (by omega)
  simp only [readHeader, HEAD_ID_LEN, HEAD_SIZE_LEN, read_full fd _ 4 h1, hd]
  rw [readUInt_full _ _ 4 (by simpa using (by omega : fd.pos + 4 + 4 ≤ fd.data.length))]
  simp [Fd.next, Fd.field, Nat.add_assoc]

/-- Reading a header whose next 8 bytes are the tag `t` and the encoding of `s`. -/
theorem readHeader_of_next (fd : Fd) (header : riff_header) (t : List Byte) (s : Nat)
    (ht : t.length = 4) (hs : s < 2 ^ 32) (hid : header.id.length = 4)
    (hnext : fd.next 8 = t ++ toLE 4 s) :
    readHeader fd header =
      { ret := 0, header := { id := t, size := s }, fd := { fd with pos := fd.pos + 8 } } := by
  have hlen : (fd.next 8).length = 8 := by rw [hnext]; simp [ht, toLE_length]
  have hpos : fd.pos + 8 ≤ fd.data.length := by
    rw [next_length] at hlen; omega
  have hsplit := next_add fd 4 4
  rw [hnext] at hsplit
  have h4 : (fd.next 4).length = 4 := next_length_of_le fd 4 (by omega)
  have hinj := List.append_inj hsplit (by rw [ht, h4])
  rw [readHeader_full fd header hpos hid]
  have hsz : fd.field 4 4 = s := by
    have : fd.field 4 4 = ofLE (Fd.next { fd with pos := fd.pos + 4 } 4) := rfl
    rw [this, ← hinj.2, ofLE_toLE_of_lt 4 s (by simpa using hs)]
  rw [hsz, ← hinj.1]

/-- `processFmtSegment` when the 16 bytes of a PCM format chunk are present. -/
theorem processFmtSegment_full (fd : Fd) (header : riff_header) (w : wav_fmt)
    (h : fd.pos + 16 ≤ fd.data.length) :
    processFmtSegment fd header w =
      { ret := 0,
        wavFmtInfo :=
          { wFormatTag := fd.field 0 2, wChannels := fd.field 2 2,
            dwSamplesPerSec := fd.field 4 4, dwAvgBytesPerSec := fd.field 8 4,
            wBlockAlign := fd.field 12 2,
            nBitsPerSample := if fd.field 0 2 = 1 then fd.field 14 2 else w.nBitsPerSample },
        fd := { fd with pos := fd.pos + (if fd.field 0 2 = 1 then 16 else 14) } } := by
  simp only [processFmtSegment, MS_PMC_TAG]
  rw [readUInt_full fd _ 2 (by omega)]
  rw [readUInt_full _ _ 2 (by simp only; omega)]
  rw [readUInt_full _ _ 4 (by simp only; omega)]
  rw [readUInt_full _ _ 4 (by simp only; omega)]
  rw [readUInt_full _ _ 2 (by simp only; omega)]
  rw [readUInt_full _ _ 2 (by simp only; omega)]
  simp only [Fd.next, Fd.field, Nat.add_assoc, Nat.add_zero]
  split <;> rfl

/-! ## The claims -/

/-- C2: a header written as a 4-byte tag `t` followed by the 32-bit little-endian encoding
of `s` is read back by `readHeader` as exactly `t` and `s`, with return value 0 and the
cursor advanced by exactly 8. -/
theorem readHeader_roundtrip (fd : Fd) (header : riff_header) (t : List Byte) (s : Nat)
    (ht : t.length = 4) (hs : s < 2 ^ 32) (hid : header.id.length = 4)
    (hnext : fd.next 8 = t ++ toLE 4 s) :
    readHeader fd header =
      { ret := 0, header := { id := t, size := s }, fd := { fd with pos := fd.pos + 8 } } :=
  readHeader_of_next fd header t s ht hs hid hnext

/-- C2 at the tag "data" and the size 1000. -/
theorem readHeader_roundtrip_witness :
    readHeader { data := DATA ++ toLE 4 1000, pos := 0 } { id := [0, 0, 0, 0], size := 0 } =
      { ret := 0, header := { id := DATA, size := 1000 },
        fd := { data := DATA ++ toLE 4 1000, pos := 8 } } :=
  readHeader_roundtrip { data := DATA ++ toLE 4 1000, pos := 0 } { id := [0, 0, 0, 0], size := 0 }
    DATA 1000 (by decide) (by decide) (by decide) (by decide)

/-- C5 (the code departs from the claim): with 5 bytes left, `readHeader` returns 0; the
size it hands back is the single byte present below the three stale high-order bytes of
the header object. -/
theorem readHeader_five_bytes_left :
    readHeader { data := DATA ++ [0xE8], pos := 0 } { id := [0, 0, 0, 0], size := 0x12345678 } =
      { ret := 0, header := { id := DATA, size := 0x123456E8 },
        fd := { data := DATA ++ [0xE8], pos := 5 } } := by
  decide

/-- With 1 to 4 bytes left `readHeader` fails: its second `read` transfers nothing. -/
theorem readHeader_one_to_four_left (fd : Fd) (header : riff_header)
    (h1 : fd.pos + 1 ≤ fd.data.length) (h4 : fd.data.length ≤ fd.pos + 4) :
    (readHeader fd header).ret = -2 := by
  have hl : (fd.next 4).length = fd.data.length - fd.pos := by rw [next_length]; omega
  have hn : ¬ ((fd.next 4).length : Int) ≤ 0 := by rw [hl]; omega
  have he : fd.data.length ≤ (read fd header.id 4).fd.pos := by
    simp only [read, hl]; omega
  simp only [readHeader, HEAD_ID_LEN, HEAD_SIZE_LEN]
  rw [if_neg (by simpa [read] using hn)]
  simp [readUInt, read_eof (read fd header.id 4).fd _ _ he]

/-- C6: with the cursor exactly at the end of the file `readHeader` returns a negative value
and consumes nothing, and the chunk loop ends normally with every object of `main` as it
was. -/
theorem chunkLoop_at_end_of_stream (s : State) (h : s.wavFd.pos = s.wavFd.data.length) :
    (readHeader s.wavFd s.tempHeader).ret < 0 ∧
    (readHeader s.wavFd s.tempHeader).fd = s.wavFd ∧
    (readHeader s.wavFd s.tempHeader).header = s.tempHeader ∧
    chunkLoop s = some (.ok s) := by
  have he : s.wavFd.data.length ≤ s.wavFd.pos := by omega
  refine ⟨by simp [readHeader_eof _ _ he], by simp [readHeader_eof _ _ he],
    by simp [readHeader_eof _ _ he], ?_⟩
  simp [chunkLoop, chunkLoopFuel, readHeader_eof _ _ he]

/-- C6 on a file that ends right after its 12-byte RIFF/WAVE preamble. -/
theorem chunkLoop_at_end_of_stream_witness :
    chunkLoop { wavFd := { data := RIFF ++ toLE 4 4 ++ WAVE, pos := 12 },
                tempHeader := { id := WAVE, size := 0 },
                wavFmtInfo := ⟨0, 0, 0, 0, 0, 0⟩, riffListInfo := ⟨List.replicate 256 0⟩,
                dataLength := 0, subtype := [0, 0, 0, 0] } =
      some (.ok { wavFd := { data := RIFF ++ toLE 4 4 ++ WAVE, pos := 12 },
                  tempHeader := { id := WAVE, size := 0 },
                  wavFmtInfo := ⟨0, 0, 0, 0, 0, 0⟩, riffListInfo := ⟨List.replicate 256 0⟩,
                  dataLength := 0, subtype := [0, 0, 0, 0] }) :=
  (chunkLoop_at_end_of_stream _ (by decide)).2.2.2

/-- C10: with 16 bytes present at the cursor `processFmtSegment` decodes the five fixed
fields from bytes 0-1, 2-3, 4-7, 8-11 and 12-13, reads bytes 14-15 into `nBitsPerSample`
exactly when the format tag is 1 (leaving the field as it was otherwise), and consumes 16
bytes in the first case and 14 in the second, whatever the header says. -/
theorem processFmtSegment_layout (fd : Fd) (header : riff_header) (w : wav_fmt)
    (h : fd.pos + 16 ≤ fd.data.length) :
    processFmtSegment fd header w =
      { ret := 0,
        wavFmtInfo :=
          { wFormatTag := fd.field 0 2, wChannels := fd.field 2 2,
            dwSamplesPerSec := fd.field 4 4, dwAvgBytesPerSec := fd.field 8 4,
            wBlockAlign := fd.field 12 2,
            nBitsPerSample := if fd.field 0 2 = 1 then fd.field 14 2 else w.nBitsPerSample },
        fd := { fd with pos := fd.pos + (if fd.field 0 2 = 1 then 16 else 14) } } :=
  processFmtSegment_full fd header w h

/-- C10 on the 16 bytes of a stereo 44100 Hz 16-bit PCM format chunk. -/
theorem processFmtSegment_layout_witness :
    processFmtSegment
        { data := toLE 2 1 ++ toLE 2 2 ++ toLE 4 44100 ++ toLE 4 176400 ++ toLE 2 4 ++ toLE 2 16,
          pos := 0 }
        { id := FMT, size := 16 } ⟨0, 0, 0, 0, 0, 0⟩ =
      { ret := 0, wavFmtInfo := ⟨1, 2, 44100, 176400, 4, 16⟩,
        fd := { data := toLE 2 1 ++ toLE 2 2 ++ toLE 4 44100 ++ toLE 4 176400 ++ toLE 2 4 ++
                  toLE 2 16,
                pos := 16 } } :=
  processFmtSegment_layout _ _ _ (by decide)

/-- Against a literal of `n` non-NUL characters, `strncmp` is 0 exactly when the first `n`
characters are those of the literal. -/
theorem strncmp_eq_zero_iff (t a : List Byte) (hnz : ∀ b ∈ t, b ≠ 0) :
    strncmp a t t.length = 0 ↔ a.take t.length = t := by
  induction t generalizing a with
  | nil => simp [strncmp]
  | cons t0 ts ih =>
    have ht0 : t0 ≠ 0 := hnz t0 (List.mem_cons_self _ _)
    have hts : ∀ b ∈ ts, b ≠ 0 := fun b hb => hnz b (List.mem_cons_of_mem _ hb)
    cases a with
    | nil =>
      have hne : (0 : Byte) ≠ t0 := fun h => ht0 h.symm
      have hv : ((t0 : Byte).val : Int) ≠ 0 := by
        intro h; apply ht0; apply Fin.ext; simpa using h
      simp [strncmp, hne, hv]
    | cons a0 as =>
      by_cases h : a0 = t0
      · subst h
        simp [strncmp, ht0, ih as hts]
      · have hv : ((a0 : Byte).val : Int) - ((t0 : Byte).val : Int) ≠ 0 := by
          intro hz; apply h; apply Fin.ext; omega
        simp [strncmp, h, hv]

theorem strncmp_RIFF (a : List Byte) : strncmp a RIFF HEAD_ID_LEN = 0 ↔ a.take 4 = RIFF :=
  strncmp_eq_zero_iff RIFF a (by simp [RIFF])

theorem strncmp_WAVE (a : List Byte) : strncmp a WAVE HEAD_ID_LEN = 0 ↔ a.take 4 = WAVE :=
  strncmp_eq_zero_iff WAVE a (by simp [WAVE])

theorem strncmp_FMT (a : List Byte) : strncmp a FMT HEAD_ID_LEN = 0 ↔ a.take 4 = FMT :=
  strncmp_eq_zero_iff FMT a (by simp [FMT])

theorem strncmp_LIST (a : List Byte) : strncmp a LIST HEAD_ID_LEN = 0 ↔ a.take 4 = LIST :=
  strncmp_eq_zero_iff LIST a (by simp [LIST])

theorem strncmp_DATA (a : List Byte) : strncmp a DATA HEAD_ID_LEN = 0 ↔ a.take 4 = DATA :=
  strncmp_eq_zero_iff DATA a (by simp [DATA])

theorem strncmp_INFO (a : List Byte) : strncmp a INFO 4 = 0 ↔ a.take 4 = INFO :=
  strncmp_eq_zero_iff INFO a (by simp [INFO])

theorem lseek_forward (fd : Fd) (n : Nat) : lseek fd (n : Int) = { fd with pos := fd.pos + n } := by
  have h : ¬ ((fd.pos : Int) + (n : Int) < 0) := by omega
  simp only [lseek, if_neg h]
  congr 1

theorem readHeader_ret (fd : Fd) (header : riff_header) :
    (readHeader fd header).ret = 0 ∨ (readHeader fd header).ret = -2 := by
  simp only [readHeader]
  split
  · exact Or.inr rfl
  · split
    · exact Or.inr rfl
    · exact Or.inl rfl

/-- When `readHeader` does not fail, the tag it stored is the next four bytes of the file. -/
theorem readHeader_id_take (fd : Fd) (header : riff_header)
    (h : ¬ (readHeader fd header).ret < 0) :
    (readHeader fd header).header.id.take 4 = fd.next 4 ∧ (fd.next 4).length = 4 := by
  by_cases h4 : fd.pos + 4 ≤ fd.data.length
  · have hl := next_length_of_le fd 4 h4
    have hid : (readHeader fd header).header.id = fd.next 4 ++ header.id.drop 4 := by
      simp only [readHeader, HEAD_ID_LEN, HEAD_SIZE_LEN, read_full fd _ 4 h4]
      split
      · rename_i h0; simp at h0
      · split <;> rfl
    refine ⟨?_, hl⟩
    rw [hid, List.take_left' hl]
  · exfalso
    apply h
    by_cases h1 : fd.pos + 1 ≤ fd.data.length
    · rw [readHeader_one_to_four_left fd header h1 (by omega)]; simp
    · rw [readHeader_eof fd header (by omega)]; simp

theorem readHeaderTest_ret_zero_iff (fd : Fd) (header : riff_header) (str : List Byte)
    (hlen : str.length = 4) (hnz : ∀ b ∈ str, b ≠ 0) :
    (readHeaderTest fd header str).ret = 0 ↔
      ((readHeader fd header).ret = 0 ∧ (readHeader fd header).header.id.take 4 = str) := by
  have hs := strncmp_eq_zero_iff str (readHeader fd header).header.id hnz
  rw [hlen] at hs
  simp only [readHeaderTest, HEAD_ID_LEN]
  rcases readHeader_ret fd header with h0 | h2
  · by_cases hc : strncmp (readHeader fd header).header.id str 4 = 0
    · simp [h0, hc, hs.mp hc]
    · have : ¬ (readHeader fd header).header.id.take 4 = str := fun e => hc (hs.mpr e)
      simp [h0, hc, this]
  · simp [h2]

theorem readHeaderTest_fd (fd : Fd) (header : riff_header) (str : List Byte) :
    (readHeaderTest fd header str).fd = (readHeader fd header).fd ∧
    (readHeaderTest fd header str).header = (readHeader fd header).header := by
  simp only [readHeaderTest]
  split <;> exact ⟨rfl, rfl⟩

theorem readHeaderTest_ret (fd : Fd) (header : riff_header) (str : List Byte) :
    (readHeaderTest fd header str).ret = 0 ∨ (readHeaderTest fd header str).ret = -1 := by
  simp only [readHeaderTest]
  split
  · exact Or.inr rfl
  · exact Or.inl rfl

/-- C3: when the first four bytes of the file are not "RIFF", `readHeaderTest` for "RIFF"
returns -1 and `main` returns -2 with the cursor and the header where that one
`readHeader` left them and every other object untouched; and for an expected tag of four
non-NUL characters `readHeaderTest` returns 0 exactly when `readHeader` returns 0 and the
four tag bytes are the expected ones. -/
theorem riff_tag_mismatch (file : List Byte) (init : State) (h : file.take 4 ≠ RIFF) :
    (readHeaderTest { data := file, pos := 0 } init.tempHeader RIFF).ret = -1 ∧
    main file init =
      some (.ok { code := -2,
                  st := { init with
                          wavFd := (readHeader { data := file, pos := 0 } init.tempHeader).fd,
                          tempHeader :=
                            (readHeader { data := file, pos := 0 } init.tempHeader).header },
                  seconds := none }) ∧
    (∀ (fd : Fd) (header : riff_header) (str : List Byte), str.length = 4 →
      (∀ b ∈ str, b ≠ 0) →
      ((readHeaderTest fd header str).ret = 0 ↔
        ((readHeader fd header).ret = 0 ∧ (readHeader fd header).header.id.take 4 = str))) := by
  have hret : (readHeaderTest { data := file, pos := 0 } init.tempHeader RIFF).ret = -1 := by
    rcases readHeaderTest_ret { data := file, pos := 0 } init.tempHeader RIFF with h0 | h1
    · exfalso
      have hz := (readHeaderTest_ret_zero_iff _ _ RIFF rfl (by simp [RIFF])).mp h0
      have hid := readHeader_id_take { data := file, pos := 0 } init.tempHeader
        (by rw [hz.1]; decide)
      apply h
      rw [← hz.2, hid.1]
      simp [Fd.next]
    · exact h1
  refine ⟨hret, ?_, fun fd header str hl hnz => readHeaderTest_ret_zero_iff fd header str hl hnz⟩
  have hfd := readHeaderTest_fd { data := file, pos := 0 } init.tempHeader RIFF
  simp only [main, hret, hfd.1, hfd.2]
  rfl

/-- C3 on a file that starts with "RIFX": `main` returns -2 with the cursor at offset 8. -/
theorem riff_tag_mismatch_witness :
    main ([82, 73, 70, 88] ++ toLE 4 36 ++ WAVE ++ FMT)
        { wavFd := { data := [], pos := 0 }, tempHeader := { id := [0, 0, 0, 0], size := 0 },
          wavFmtInfo := ⟨0, 0, 0, 0, 0, 0⟩, riffListInfo := ⟨[]⟩, dataLength := 0,
          subtype := [0, 0, 0, 0] } =
      some (.ok { code := -2,
                  st := { wavFd := { data := [82, 73, 70, 88] ++ toLE 4 36 ++ WAVE ++ FMT,
                                     pos := 8 },
                          tempHeader := { id := [82, 73, 70, 88], size := 36 },
                          wavFmtInfo := ⟨0, 0, 0, 0, 0, 0⟩, riffListInfo := ⟨[]⟩,
                          dataLength := 0, subtype := [0, 0, 0, 0] },
                  seconds := none }) :=
  (riff_tag_mismatch _ _ (by decide)).2.1

/-- C4: for a header whose tag is none of "fmt ", "LIST", "data", the loop body moves the
cursor forward by exactly the declared size and changes nothing else; the `readHeader`
that follows therefore reads the 8 bytes found at that distance. -/
theorem dispatch_unknown_chunk (s : State)
    (hf : s.tempHeader.id.take 4 ≠ FMT) (hl : s.tempHeader.id.take 4 ≠ LIST)
    (hd : s.tempHeader.id.take 4 ≠ DATA) :
    dispatch s =
      .ok { s with wavFd := { s.wavFd with pos := s.wavFd.pos + s.tempHeader.size } } ∧
    (∀ (t : List Byte) (n : Nat), t.length = 4 → n < 2 ^ 32 → s.tempHeader.id.length = 4 →
      Fd.next { s.wavFd with pos := s.wavFd.pos + s.tempHeader.size } 8 = t ++ toLE 4 n →
      ∃ s1, dispatch s = .ok s1 ∧
        s1.wavFmtInfo = s.wavFmtInfo ∧ s1.riffListInfo = s.riffListInfo ∧
        s1.dataLength = s.dataLength ∧
        readHeader s1.wavFd s1.tempHeader =
          { ret := 0, header := { id := t, size := n },
            fd := { s.wavFd with pos := s.wavFd.pos + s.tempHeader.size + 8 } }) := by
  have hdisp : dispatch s =
      .ok { s with wavFd := { s.wavFd with pos := s.wavFd.pos + s.tempHeader.size } } := by
    have h1 : ¬ strncmp s.tempHeader.id FMT HEAD_ID_LEN = 0 := fun e => hf ((strncmp_FMT _).mp e)
    have h2 : ¬ strncmp s.tempHeader.id LIST HEAD_ID_LEN = 0 := fun e => hl ((strncmp_LIST _).mp e)
    have h3 : ¬ strncmp s.tempHeader.id DATA HEAD_ID_LEN = 0 := fun e => hd ((strncmp_DATA _).mp e)
    simp only [dispatch, if_neg h1, if_neg h2, if_neg h3, lseek_forward]
  refine ⟨hdisp, fun t n ht hn hid hnext => ⟨_, hdisp, rfl, rfl, rfl, ?_⟩⟩
  exact readHeader_of_next _ _ t n ht hn hid hnext

/-- C4 on a "fact" chunk of declared size 4 that is followed by a "data" chunk. -/
theorem dispatch_unknown_chunk_witness :
    dispatch { wavFd := { data := [102, 97, 99, 116] ++ toLE 4 4 ++ [1, 2, 3, 4] ++ DATA ++
                            toLE 4 1000,
                          pos := 8 },
               tempHeader := { id := [102, 97, 99, 116], size := 4 },
               wavFmtInfo := ⟨1, 2, 44100, 176400, 4, 16⟩, riffListInfo := ⟨[]⟩,
               dataLength := 7, subtype := [0, 0, 0, 0] } =
      .ok { wavFd := { data := [102, 97, 99, 116] ++ toLE 4 4 ++ [1, 2, 3, 4] ++ DATA ++
                         toLE 4 1000,
                       pos := 12 },
            tempHeader := { id := [102, 97, 99, 116], size := 4 },
            wavFmtInfo := ⟨1, 2, 44100, 176400, 4, 16⟩, riffListInfo := ⟨[]⟩,
            dataLength := 7, subtype := [0, 0, 0, 0] } :=
  (dispatch_unknown_chunk _ (by decide) (by decide) (by decide)).1

/-! ## `strCleanZeros` and the LIST segment -/

/-- The loop of `strCleanZeros` over a stretch that lies inside the array. -/
theorem strCleanZerosLoop_append (mid pre post : List Byte) :
    strCleanZerosLoop mid.length pre.length (pre ++ mid ++ post) =
      some (pre ++ mid.map cleanZero ++ post) := by
  induction mid generalizing pre with
  | nil => simp [strCleanZerosLoop]
  | cons c ms ih =>
    have hget : (pre ++ c :: ms ++ post)[pre.length]? = some c := by
      rw [List.append_assoc, List.getElem?_append_right (le_refl _)]
      simp
    have hset : ∀ x : Byte, (pre ++ c :: ms ++ post).set pre.length x
        = (pre ++ [x]) ++ ms ++ post := by
      intro x; simp [List.append_assoc]
    have hself : pre ++ c :: ms ++ post = (pre ++ [c]) ++ ms ++ post := by
      simp [List.append_assoc]
    have hlen : ∀ x : Byte, pre.length + 1 = (pre ++ [x]).length := by intro x; simp
    simp only [List.length_cons, strCleanZerosLoop, hget]
    by_cases hc : c = 0
    · rw [if_pos hc, hset, hlen 32, ih (pre ++ [32])]
      simp [cleanZero, hc, List.append_assoc]
    · rw [if_neg hc, hself, hlen c, ih (pre ++ [c])]
      simp [cleanZero, hc, List.append_assoc]

/-- Within the array, `strCleanZeros` cleans the first `len` characters and keeps the rest. -/
theorem strCleanZeros_eq (str : List Byte) (len : Nat) (h : len ≤ str.length) :
    strCleanZeros str len = some ((str.take len).map cleanZero ++ str.drop len) := by
  have hl : (str.take len).length = len := by simp [h]
  have := strCleanZerosLoop_append (str.take len) [] (str.drop len)
  rw [hl] at this
  simpa [strCleanZeros] using this

theorem strCleanZerosLoop_length (k i : Nat) (str out : List Byte)
    (h : strCleanZerosLoop k i str = some out) : out.length = str.length := by
  induction k generalizing i str with
  | zero => simp [strCleanZerosLoop] at h; rw [← h]
  | succ k ih =>
    simp only [strCleanZerosLoop] at h
    cases hg : str[i]? with
    | none => simp [hg] at h
    | some c =>
      simp only [hg] at h
      rw [ih _ _ h]
      split <;> simp

/-- The loop of `strCleanZeros` reads outside the array when `len` exceeds its size. -/
theorem strCleanZerosLoop_none (k i : Nat) (str : List Byte) (hi : i ≤ str.length)
    (h : str.length < i + k) : strCleanZerosLoop k i str = none := by
  induction k generalizing i str with
  | zero =>
    exfalso
    omega
  | succ k ih =>
    simp only [strCleanZerosLoop]
    cases hg : str[i]? with
    | none => rfl
    | some c =>
      have hlt : i < str.length := by
        by_contra hn
        rw [List.getElem?_eq_none (by omega)] at hg
        cases hg
      have hlen : (if c = 0 then str.set i 32 else str).length = str.length := by
        split <;> simp
      simp only
      apply ih
      · rw [hlen]; omega
      · rw [hlen]; omega

theorem set_append_cons (xs rest : List Byte) (a x : Byte) :
    (xs ++ a :: rest).set xs.length x = xs ++ x :: rest := by
  induction xs with
  | nil => rfl
  | cons y ys ih => simp [ih]

theorem cstr_append_nul (xs rest : List Byte) (h : ∀ b ∈ xs, b ≠ 0) :
    cstr (xs ++ 0 :: rest) = xs := by
  induction xs with
  | nil => simp [cstr]
  | cons y ys ih =>
    have hy : y ≠ 0 := h y (List.mem_cons_self _ _)
    have hys : ∀ b ∈ ys, b ≠ 0 := fun b hb => h b (List.mem_cons_of_mem _ hb)
    have hd : decide (y ≠ 0) = true := decide_eq_true hy
    have := ih hys
    simp only [cstr] at this
    simp only [cstr, List.cons_append, List.takeWhile_cons, hd, if_true, this]

theorem cleanZero_ne_zero (c : Byte) : cleanZero c ≠ 0 := by
  unfold cleanZero
  split
  · decide
  · assumption

/-- The value of `infoSizeOf` is the 32-bit wrap-around difference `(size - 4) mod 2^32`. -/
theorem infoSizeOf_eq_mod (header : riff_header) (h : header.size < 2 ^ 32) :
    infoSizeOf header = (header.size + 2 ^ 32 - 4) % 2 ^ 32 := by
  unfold infoSizeOf
  split <;> omega

theorem infoSizeOf_of_ge (header : riff_header) (h4 : 4 ≤ header.size) :
    infoSizeOf header = header.size - 4 := by
  unfold infoSizeOf
  rw [if_pos h4]

theorem infoSizeOf_of_lt (header : riff_header) (h4 : header.size < 4) :
    infoSizeOf header = header.size + 2 ^ 32 - 4 := by
  unfold infoSizeOf
  rw [if_neg (by omega)]

/-- The INFO branch of `processLISTSegment` when the subtype bytes are present. -/
theorem processLISTSegment_info_branch (fd : Fd) (header : riff_header) (li : riff_list_info)
    (subtype : List Byte) (hsub : fd.next 4 = INFO) :
    processLISTSegment fd header li subtype =
      (if (MAX_STR_LEN : Int) < (read { fd with pos := fd.pos + 4 } li.name (infoSizeOf header)).n
       then .error (.outOfBounds MAX_STR_LEN)
       else
        match strCleanZeros (read { fd with pos := fd.pos + 4 } li.name (infoSizeOf header)).buf
            (infoSizeOf header) with
        | none =>
          .error (.outOfBounds
            (read { fd with pos := fd.pos + 4 } li.name (infoSizeOf header)).buf.length)
        | some name =>
          if infoSizeOf header < MAX_STR_LEN then
            .ok { ret := 0, riffListInfo := { name := name.set (infoSizeOf header) 0 },
                  fd := (read { fd with pos := fd.pos + 4 } li.name (infoSizeOf header)).fd }
          else .error (.outOfBounds (infoSizeOf header))) := by
  have hl : (fd.next 4).length = 4 := by rw [hsub]; rfl
  have hp4 : fd.pos + 4 ≤ fd.data.length := by rw [next_length] at hl; omega
  have hcmp : strncmp (INFO ++ subtype.drop 4) INFO 4 = 0 :=
    (strncmp_INFO _).mpr (by simp [INFO])
  unfold processLISTSegment
  simp only [processLISTSegment, read_full fd _ 4 hp4, hsub, if_pos hcmp]

theorem set_append_drop (xs name : List Byte) (k : Nat) (x : Byte) (hk : xs.length = k)
    (h : k < name.length) :
    (xs ++ name.drop k).set k x = xs ++ x :: name.drop (k + 1) := by
  subst hk
  rw [List.drop_eq_getElem_cons h, set_append_cons]

/-- The INFO branch accesses `name` outside its 256 bytes whenever the info size is 256
or more: the first index outside the array that it touches is 256. -/
theorem processLISTSegment_overflow (fd : Fd) (header : riff_header) (li : riff_list_info)
    (subtype : List Byte) (hsub : fd.next 4 = INFO) (hname : li.name.length = MAX_STR_LEN)
    (hbig : MAX_STR_LEN ≤ infoSizeOf header) :
    processLISTSegment fd header li subtype = .error (.outOfBounds MAX_STR_LEN) := by
  rw [processLISTSegment_info_branch fd header li subtype hsub]
  generalize infoSizeOf header = k at hbig
  simp only [MAX_STR_LEN] at hname hbig ⊢
  by_cases hn : ((256 : Nat) : Int) < (read { fd with pos := fd.pos + 4 } li.name k).n
  · rw [if_pos hn]
  · rw [if_neg hn]
    have hgl : (Fd.next { fd with pos := fd.pos + 4 } k).length ≤ 256 := by
      simp only [read] at hn; omega
    have hbl : (read { fd with pos := fd.pos + 4 } li.name k).buf.length = 256 := by
      simp only [read, List.length_append, List.length_drop, hname]; omega
    by_cases hk : k = 256
    · subst hk
      rw [strCleanZeros_eq _ 256 (by omega)]
      simp
    · have hnone : strCleanZeros (read { fd with pos := fd.pos + 4 } li.name k).buf k = none :=
        strCleanZerosLoop_none k 0 _ (by omega) (by omega)
      rw [hnone, hbl]

/-- The INFO branch when the info size is at most 255 and the body is present. -/
theorem processLISTSegment_info (fd : Fd) (header : riff_header) (li : riff_list_info)
    (subtype : List Byte) (hsub : fd.next 4 = INFO) (h4 : 4 ≤ header.size)
    (h259 : header.size ≤ 259) (hbody : fd.pos + header.size ≤ fd.data.length)
    (hname : li.name.length = MAX_STR_LEN) :
    processLISTSegment fd header li subtype =
      .ok { ret := 0,
            riffListInfo :=
              { name := (Fd.next { fd with pos := fd.pos + 4 } (header.size - 4)).map cleanZero
                          ++ 0 :: li.name.drop (header.size - 4 + 1) },
            fd := { fd with pos := fd.pos + header.size } } := by
  rw [processLISTSegment_info_branch fd header li subtype hsub, infoSizeOf_of_ge header h4]
  generalize hk : header.size - 4 = k
  have hk255 : k ≤ 255 := by omega
  simp only [MAX_STR_LEN] at hname ⊢
  have hfull : ({ fd with pos := fd.pos + 4 } : Fd).pos + k ≤
      ({ fd with pos := fd.pos + 4 } : Fd).data.length := by simp only; omega
  rw [read_full _ _ k hfull]
  have hbl : (Fd.next { fd with pos := fd.pos + 4 } k).length = k := next_length_of_le _ _ hfull
  have hclean : strCleanZeros (Fd.next { fd with pos := fd.pos + 4 } k ++ li.name.drop k) k =
      some ((Fd.next { fd with pos := fd.pos + 4 } k).map cleanZero ++ li.name.drop k) := by
    have := strCleanZerosLoop_append (Fd.next { fd with pos := fd.pos + 4 } k) []
      (li.name.drop k)
    rw [hbl] at this
    simpa [strCleanZeros] using this
  have hset : ((Fd.next { fd with pos := fd.pos + 4 } k).map cleanZero ++ li.name.drop k).set k 0
      = (Fd.next { fd with pos := fd.pos + 4 } k).map cleanZero ++ 0 :: li.name.drop (k + 1) :=
    set_append_drop _ _ k 0 (by rw [List.length_map, hbl]) (by omega)
  have hpos : fd.pos + 4 + k = fd.pos + header.size := by omega
  have hn : ¬ ((256 : Nat) : Int) < (k : Int) := by omega
  simp only [hn, if_false, hclean, hset, if_pos (by omega : k < 256), hpos]

/-- C7: for a LIST chunk with subtype "INFO", declared size `d` between 4 and 259 and its
body present, `processLISTSegment` returns 0, advances the cursor by exactly `d`, and
leaves in `name` the `d - 4` bytes after the subtype with every NUL turned into a space,
then one NUL at index `d - 4`, then the old content; the C string in `name` is those
`d - 4` cleaned bytes, the empty string when `d = 4`. -/
theorem processLISTSegment_info_name (fd : Fd) (header : riff_header) (li : riff_list_info)
    (subtype : List Byte) (hsub : fd.next 4 = INFO) (h4 : 4 ≤ header.size)
    (h259 : header.size ≤ 259) (hbody : fd.pos + header.size ≤ fd.data.length)
    (hname : li.name.length = MAX_STR_LEN) :
    processLISTSegment fd header li subtype =
      .ok { ret := 0,
            riffListInfo :=
              { name := (Fd.next { fd with pos := fd.pos + 4 } (header.size - 4)).map cleanZero
                          ++ 0 :: li.name.drop (header.size - 4 + 1) },
            fd := { fd with pos := fd.pos + header.size } } ∧
    ((Fd.next { fd with pos := fd.pos + 4 } (header.size - 4)).map cleanZero
        ++ 0 :: li.name.drop (header.size - 4 + 1)).length = MAX_STR_LEN ∧
    cstr ((Fd.next { fd with pos := fd.pos + 4 } (header.size - 4)).map cleanZero
        ++ 0 :: li.name.drop (header.size - 4 + 1)) =
      (Fd.next { fd with pos := fd.pos + 4 } (header.size - 4)).map cleanZero ∧
    (cstr ((Fd.next { fd with pos := fd.pos + 4 } (header.size - 4)).map cleanZero
        ++ 0 :: li.name.drop (header.size - 4 + 1))).length = header.size - 4 ∧
    (header.size = 4 →
      cstr ((Fd.next { fd with pos := fd.pos + 4 } (header.size - 4)).map cleanZero
        ++ 0 :: li.name.drop (header.size - 4 + 1)) = []) := by
  have hbl : (Fd.next { fd with pos := fd.pos + 4 } (header.size - 4)).length =
      header.size - 4 := next_length_of_le _ _ (by simp only; omega)
  have hc : cstr ((Fd.next { fd with pos := fd.pos + 4 } (header.size - 4)).map cleanZero
        ++ 0 :: li.name.drop (header.size - 4 + 1)) =
      (Fd.next { fd with pos := fd.pos + 4 } (header.size - 4)).map cleanZero := by
    apply cstr_append_nul
    intro b hb
    obtain ⟨c, _, rfl⟩ := List.mem_map.mp hb
    exact cleanZero_ne_zero c
  refine ⟨processLISTSegment_info fd header li subtype hsub h4 h259 hbody hname, ?_, hc, ?_, ?_⟩
  · simp only [MAX_STR_LEN] at hname
    simp only [List.length_append, List.length_map, hbl, List.length_cons, List.length_drop,
      hname, MAX_STR_LEN]
    omega
  · rw [hc, List.length_map, hbl]
  · intro h
    rw [hc]
    have : (Fd.next { fd with pos := fd.pos + 4 } (header.size - 4)).length = 0 := by
      rw [hbl, h]
    rw [List.length_eq_zero.mp this]
    rfl

/-- C7 on an INFO list of declared size 8 whose text holds two NULs. -/
theorem processLISTSegment_info_name_witness :
    processLISTSegment { data := INFO ++ [65, 0, 66, 0] ++ DATA, pos := 0 }
        { id := LIST, size := 8 } { name := List.replicate 256 7 } [0, 0, 0, 0] =
      .ok { ret := 0,
            riffListInfo := { name := [65, 32, 66, 32] ++ 0 :: (List.replicate 256 7).drop 5 },
            fd := { data := INFO ++ [65, 0, 66, 0] ++ DATA, pos := 8 } } :=
  (processLISTSegment_info_name { data := INFO ++ [65, 0, 66, 0] ++ DATA, pos := 0 }
    { id := LIST, size := 8 } { name := List.replicate 256 7 } [0, 0, 0, 0]
    (by decide) (by decide) (by decide) (by decide) (List.length_replicate 256 7)).1

/-- C8 (the code departs from the claim): for an INFO list of declared size 3 the info
size is the wrapped value 2^32 - 1, a `read` of that length is issued, and the call does
not reject the chunk but runs into an access outside `name`. -/
theorem processLISTSegment_size_below_four :
    infoSizeOf { id := LIST, size := 3 } = 4294967295 ∧
    (read { data := INFO ++ [65, 66, 67], pos := 4 } (List.replicate 256 0)
        (infoSizeOf { id := LIST, size := 3 })).n = 3 ∧
    processLISTSegment { data := INFO ++ [65, 66, 67], pos := 0 } { id := LIST, size := 3 }
        { name := List.replicate 256 0 } [0, 0, 0, 0] =
      .error (.outOfBounds 256) :=
  ⟨by decide, by decide,
   processLISTSegment_overflow _ _ _ _ (by decide) (List.length_replicate 256 0) (by decide)⟩

/-- C9 (the code departs from the claim): for an INFO list of declared size 260, info
size 256, the call does not reject the chunk: it fills all 256 bytes of `name` and then
stores the terminator at index 256, outside the array. -/
theorem processLISTSegment_size_260 :
    infoSizeOf { id := LIST, size := 260 } = 256 ∧
    processLISTSegment { data := INFO ++ List.replicate 256 65, pos := 0 }
        { id := LIST, size := 260 } { name := List.replicate 256 0 } [0, 0, 0, 0] =
      .error (.outOfBounds 256) :=
  ⟨by decide,
   processLISTSegment_overflow _ _ _ _ (by decide) (List.length_replicate 256 0) (by decide)⟩

/-! ## The walk over a minimal PCM file -/

theorem next_eq_of_append (data pre x rest : List Byte) (k n : Nat)
    (hd : data = pre ++ x ++ rest) (hk : pre.length = k) (hn : x.length = n) :
    Fd.next { data := data, pos := k } n = x := by
  subst hd hk hn
  simp [Fd.next]

theorem field_eq_of_append (data pre x rest : List Byte) (k off w : Nat)
    (hd : data = pre ++ x ++ rest) (hk : pre.length = k + off) (hw : x.length = w) :
    Fd.field { data := data, pos := k } off w = ofLE x := by
  subst hd hw
  simp [Fd.field, ← hk]

theorem minimalPcmFile_length (riffSize ch rate avg align bps n : Nat) (payload : List Byte) :
    (minimalPcmFile riffSize ch rate avg align bps n payload).length = 44 + payload.length := by
  simp only [minimalPcmFile, List.length_append, toLE_length, RIFF, WAVE, FMT, DATA,
    List.length_cons, List.length_nil]

theorem minimalPcmFile_next0 (riffSize ch rate avg align bps n : Nat) (payload : List Byte) :
    Fd.next { data := minimalPcmFile riffSize ch rate avg align bps n payload, pos := 0 } 8 =
      RIFF ++ toLE 4 riffSize :=
  next_eq_of_append _ [] (RIFF ++ toLE 4 riffSize) _ 0 8
    (by simp only [minimalPcmFile, List.append_assoc, List.nil_append]; rfl) rfl
    (by simp [RIFF, toLE_length])

theorem minimalPcmFile_next8 (riffSize ch rate avg align bps n : Nat) (payload : List Byte) :
    Fd.next { data := minimalPcmFile riffSize ch rate avg align bps n payload, pos := 8 } 8 =
      WAVE ++ FMT :=
  next_eq_of_append _ (RIFF ++ toLE 4 riffSize) (WAVE ++ FMT) _ 8 8
    (by simp only [minimalPcmFile, List.append_assoc]; rfl) (by simp [RIFF, toLE_length])
    (by simp [WAVE, FMT])

theorem minimalPcmFile_next12 (riffSize ch rate avg align bps n : Nat) (payload : List Byte) :
    Fd.next { data := minimalPcmFile riffSize ch rate avg align bps n payload, pos := 12 } 8 =
      FMT ++ toLE 4 16 :=
  next_eq_of_append _ (RIFF ++ toLE 4 riffSize ++ WAVE) (FMT ++ toLE 4 16) _ 12 8
    (by simp only [minimalPcmFile, List.append_assoc]; rfl) (by simp [RIFF, WAVE, toLE_length])
    (by simp [FMT, toLE_length])

theorem minimalPcmFile_next36 (riffSize ch rate avg align bps n : Nat) (payload : List Byte) :
    Fd.next { data := minimalPcmFile riffSize ch rate avg align bps n payload, pos := 36 } 8 =
      DATA ++ toLE 4 n :=
  next_eq_of_append _
    (RIFF ++ toLE 4 riffSize ++ WAVE ++ FMT ++ toLE 4 16 ++ toLE 2 1 ++ toLE 2 ch ++
      toLE 4 rate ++ toLE 4 avg ++ toLE 2 align ++ toLE 2 bps)
    (DATA ++ toLE 4 n) _ 36 8
    (by simp only [minimalPcmFile, List.append_assoc]; rfl)
    (by simp [RIFF, WAVE, FMT, toLE_length]) (by simp [DATA, toLE_length])

theorem readHeaderTest_of_next (fd : Fd) (header : riff_header) (t : List Byte) (s : Nat)
    (ht : t.length = 4) (hs : s < 2 ^ 32) (hid : header.id.length = 4)
    (hnext : fd.next 8 = t ++ toLE 4 s) (hnz : ∀ b ∈ t, b ≠ 0) :
    readHeaderTest fd header t =
      { ret := 0, header := { id := t, size := s }, fd := { fd with pos := fd.pos + 8 } } := by
  have hcmp : strncmp t t HEAD_ID_LEN = 0 := by
    have := (strncmp_eq_zero_iff t t hnz).mpr (by simp)
    rwa [ht] at this
  simp only [readHeaderTest, readHeader_of_next fd header t s ht hs hid hnext]
  rw [if_neg (by simp [hcmp])]

theorem chunkLoopFuel_step (fuel : Nat) (fd : Fd) (hdr : riff_header) (w : wav_fmt)
    (li : riff_list_info) (d : Nat) (sub : List Byte) (hdr1 : riff_header) (fd1 : Fd) (s1 : State)
    (hr : readHeader fd hdr = { ret := 0, header := hdr1, fd := fd1 })
    (hd : dispatch { wavFd := fd1, tempHeader := hdr1, wavFmtInfo := w, riffListInfo := li,
                     dataLength := d, subtype := sub } = .ok s1) :
    chunkLoopFuel (fuel + 1)
        { wavFd := fd, tempHeader := hdr, wavFmtInfo := w, riffListInfo := li, dataLength := d,
          subtype := sub } = chunkLoopFuel fuel s1 := by
  simp only [chunkLoopFuel, hr, hd]
  rfl

theorem chunkLoopFuel_eof (fuel : Nat) (s : State) (h : s.wavFd.data.length ≤ s.wavFd.pos) :
    chunkLoopFuel (fuel + 1) s = some (.ok s) := by
  simp [chunkLoopFuel, readHeader_eof _ _ h]

theorem dispatch_fmt (s : State) (h : s.tempHeader.id.take 4 = FMT) :
    dispatch s =
      .ok { s with wavFmtInfo := (processFmtSegment s.wavFd s.tempHeader s.wavFmtInfo).wavFmtInfo,
                   wavFd := (processFmtSegment s.wavFd s.tempHeader s.wavFmtInfo).fd } := by
  simp only [dispatch, if_pos ((strncmp_FMT _).mpr h)]

theorem dispatch_data (s : State) (h : s.tempHeader.id.take 4 = DATA) :
    dispatch s =
      .ok { s with dataLength := s.tempHeader.size,
                   wavFd := { s.wavFd with pos := s.wavFd.pos + s.tempHeader.size } } := by
  have h1 : ¬ strncmp s.tempHeader.id FMT HEAD_ID_LEN = 0 := fun e => by
    have := (strncmp_FMT _).mp e
    rw [h] at this
    exact absurd this (by decide)
  have h2 : ¬ strncmp s.tempHeader.id LIST HEAD_ID_LEN = 0 := fun e => by
    have := (strncmp_LIST _).mp e
    rw [h] at this
    exact absurd this (by decide)
  simp only [dispatch, if_neg h1, if_neg h2, if_pos ((strncmp_DATA _).mpr h),
    processDataSegment, lseek_forward]

theorem minimalPcmFile_fmt (riffSize ch rate avg align bps n : Nat) (payload : List Byte)
    (hch : ch < 2 ^ 16) (hrate : rate < 2 ^ 32) (havg : avg < 2 ^ 32) (halign : align < 2 ^ 16)
    (hbps : bps < 2 ^ 16) (header : riff_header) (w : wav_fmt) :
    processFmtSegment
        { data := minimalPcmFile riffSize ch rate avg align bps n payload, pos := 20 } header w =
      { ret := 0, wavFmtInfo := ⟨1, ch, rate, avg, align, bps⟩,
        fd := { data := minimalPcmFile riffSize ch rate avg align bps n payload, pos := 36 } } := by
  have hlen := minimalPcmFile_length riffSize ch rate avg align bps n payload
  have f0 : Fd.field
      { data := minimalPcmFile riffSize ch rate avg align bps n payload, pos := 20 } 0 2 = 1 := by
    rw [field_eq_of_append _ (RIFF ++ toLE 4 riffSize ++ WAVE ++ FMT ++ toLE 4 16) (toLE 2 1) _
      20 0 2 (by simp only [minimalPcmFile, List.append_assoc]; rfl)
      (by simp [RIFF, WAVE, FMT, toLE_length]) (toLE_length _ _)]
    rfl
  have f2 : Fd.field
      { data := minimalPcmFile riffSize ch rate avg align bps n payload, pos := 20 } 2 2 = ch := by
    rw [field_eq_of_append _ (RIFF ++ toLE 4 riffSize ++ WAVE ++ FMT ++ toLE 4 16 ++ toLE 2 1)
      (toLE 2 ch) _ 20 2 2 (by simp only [minimalPcmFile, List.append_assoc]; rfl)
      (by simp [RIFF, WAVE, FMT, toLE_length]) (toLE_length _ _)]
    exact ofLE_toLE_of_lt 2 ch (by simpa using hch)
  have f4 : Fd.field
      { data := minimalPcmFile riffSize ch rate avg align bps n payload, pos := 20 } 4 4 = rate := by
    rw [field_eq_of_append _
      (RIFF ++ toLE 4 riffSize ++ WAVE ++ FMT ++ toLE 4 16 ++ toLE 2 1 ++ toLE 2 ch)
      (toLE 4 rate) _ 20 4 4 (by simp only [minimalPcmFile, List.append_assoc]; rfl)
      (by simp [RIFF, WAVE, FMT, toLE_length]) (toLE_length _ _)]
    exact ofLE_toLE_of_lt 4 rate (by simpa using hrate)
  have f8 : Fd.field
      { data := minimalPcmFile riffSize ch rate avg align bps n payload, pos := 20 } 8 4 = avg := by
    rw [field_eq_of_append _
      (RIFF ++ toLE 4 riffSize ++ WAVE ++ FMT ++ toLE 4 16 ++ toLE 2 1 ++ toLE 2 ch ++
        toLE 4 rate)
      (toLE 4 avg) _ 20 8 4 (by simp only [minimalPcmFile, List.append_assoc]; rfl)
      (by simp [RIFF, WAVE, FMT, toLE_length]) (toLE_length _ _)]
    exact ofLE_toLE_of_lt 4 avg (by simpa using havg)
  have f12 : Fd.field
      { data := minimalPcmFile riffSize ch rate avg align bps n payload, pos := 20 } 12 2 = align := by
    rw [field_eq_of_append _
      (RIFF ++ toLE 4 riffSize ++ WAVE ++ FMT ++ toLE 4 16 ++ toLE 2 1 ++ toLE 2 ch ++
        toLE 4 rate ++ toLE 4 avg)
      (toLE 2 align) _ 20 12 2 (by simp only [minimalPcmFile, List.append_assoc]; rfl)
      (by simp [RIFF, WAVE, FMT, toLE_length]) (toLE_length _ _)]
    exact ofLE_toLE_of_lt 2 align (by simpa using halign)
  have f14 : Fd.field
      { data := minimalPcmFile riffSize ch rate avg align bps n payload, pos := 20 } 14 2 = bps := by
    rw [field_eq_of_append _
      (RIFF ++ toLE 4 riffSize ++ WAVE ++ FMT ++ toLE 4 16 ++ toLE 2 1 ++ toLE 2 ch ++
        toLE 4 rate ++ toLE 4 avg ++ toLE 2 align)
      (toLE 2 bps) _ 20 14 2 (by simp only [minimalPcmFile, List.append_assoc]; rfl)
      (by simp [RIFF, WAVE, FMT, toLE_length]) (toLE_length _ _)]
    exact ofLE_toLE_of_lt 2 bps (by simpa using hbps)
  rw [processFmtSegment_full _ header w (by simp only [hlen]; omega), f0, f2, f4, f8, f12, f14]
  simp

/-- The chunk loop over a minimal PCM file, entered at offset 12. -/
theorem chunkLoop_minimalPcmFile (riffSize ch rate avg align bps n : Nat) (payload : List Byte)
    (hdr0 : riff_header) (w0 : wav_fmt) (li : riff_list_info) (d0 : Nat) (sub : List Byte)
    (hch : ch < 2 ^ 16) (hrate : rate < 2 ^ 32) (havg : avg < 2 ^ 32) (halign : align < 2 ^ 16)
    (hbps : bps < 2 ^ 16) (hn : n < 2 ^ 32) (hlen : payload.length = n)
    (hid : hdr0.id.length = 4) :
    chunkLoop
        { wavFd := { data := minimalPcmFile riffSize ch rate avg align bps n payload, pos := 12 },
          tempHeader := hdr0, wavFmtInfo := w0, riffListInfo := li, dataLength := d0,
          subtype := sub } =
      some (.ok
        { wavFd := { data := minimalPcmFile riffSize ch rate avg align bps n payload,
                     pos := 44 + n },
          tempHeader := { id := DATA, size := n },
          wavFmtInfo := ⟨1, ch, rate, avg, align, bps⟩, riffListInfo := li, dataLength := n,
          subtype := sub }) := by
  have hflen := minimalPcmFile_length riffSize ch rate avg align bps n payload
  have hr1 : readHeader
      { data := minimalPcmFile riffSize ch rate avg align bps n payload, pos := 12 } hdr0 =
      { ret := 0, header := { id := FMT, size := 16 },
        fd := { data := minimalPcmFile riffSize ch rate avg align bps n payload, pos := 20 } } :=
    readHeader_of_next _ hdr0 FMT 16 rfl (by norm_num) hid (minimalPcmFile_next12 _ _ _ _ _ _ _ _)
  have hd1 : dispatch
      { wavFd := { data := minimalPcmFile riffSize ch rate avg align bps n payload, pos := 20 },
        tempHeader := { id := FMT, size := 16 }, wavFmtInfo := w0, riffListInfo := li,
        dataLength := d0, subtype := sub } =
      .ok
      { wavFd := { data := minimalPcmFile riffSize ch rate avg align bps n payload, pos := 36 },
        tempHeader := { id := FMT, size := 16 }, wavFmtInfo := ⟨1, ch, rate, avg, align, bps⟩,
        riffListInfo := li, dataLength := d0, subtype := sub } := by
    have h := dispatch_fmt
      { wavFd := { data := minimalPcmFile riffSize ch rate avg align bps n payload, pos := 20 },
        tempHeader := { id := FMT, size := 16 }, wavFmtInfo := w0, riffListInfo := li,
        dataLength := d0, subtype := sub } rfl
    rw [h]
    simp only [minimalPcmFile_fmt riffSize ch rate avg align bps n payload hch hrate havg halign hbps]
  have hr2 : readHeader
      { data := minimalPcmFile riffSize ch rate avg align bps n payload, pos := 36 }
      { id := FMT, size := 16 } =
      { ret := 0, header := { id := DATA, size := n },
        fd := { data := minimalPcmFile riffSize ch rate avg align bps n payload, pos := 44 } } :=
    readHeader_of_next _ _ DATA n rfl hn rfl (minimalPcmFile_next36 _ _ _ _ _ _ _ _)
  have hd2 : dispatch
      { wavFd := { data := minimalPcmFile riffSize ch rate avg align bps n payload, pos := 44 },
        tempHeader := { id := DATA, size := n }, wavFmtInfo := ⟨1, ch, rate, avg, align, bps⟩,
        riffListInfo := li, dataLength := d0, subtype := sub } =
      .ok
      { wavFd := { data := minimalPcmFile riffSize ch rate avg align bps n payload,
                   pos := 44 + n },
        tempHeader := { id := DATA, size := n }, wavFmtInfo := ⟨1, ch, rate, avg, align, bps⟩,
        riffListInfo := li, dataLength := n, subtype := sub } := by
    exact dispatch_data
      { wavFd := { data := minimalPcmFile riffSize ch rate avg align bps n payload, pos := 44 },
        tempHeader := { id := DATA, size := n }, wavFmtInfo := ⟨1, ch, rate, avg, align, bps⟩,
        riffListInfo := li, dataLength := d0, subtype := sub } rfl
  have hfuel : (minimalPcmFile riffSize ch rate avg align bps n payload).length - 12 + 1 =
      n + 30 + 1 + 1 + 1 := by rw [hflen]; omega
  simp only [chunkLoop, hfuel]
  rw [chunkLoopFuel_step (n + 30 + 1 + 1) _ _ _ _ _ _ _ _ _ hr1 hd1,
    chunkLoopFuel_step (n + 30 + 1) _ _ _ _ _ _ _ _ _ hr2 hd2,
    chunkLoopFuel_eof _ _ (by simp only [hflen]; omega)]

/-- What `main` returns once its two envelope checks pass, the loop ends normally and the
divisors of the duration are not zero. -/
theorem main_of_walk (file : List Byte) (init s : State) (hdr1 hdr2 : riff_header)
    (fd1 fd2 : Fd) (secs : Nat)
    (h1 : readHeaderTest { data := file, pos := 0 } init.tempHeader RIFF =
      { ret := 0, header := hdr1, fd := fd1 })
    (h2 : readHeaderTest fd1 hdr1 WAVE = { ret := 0, header := hdr2, fd := fd2 })
    (hL : chunkLoop { init with wavFd := lseek fd2 (-4), tempHeader := hdr2 } = some (.ok s))
    (hc : calcSeconds s.wavFmtInfo s.dataLength = .ok secs) :
    main file init = some (.ok { code := 0, st := s, seconds := some secs }) := by
  simp [main, h1, h2, hL, hc]

theorem calcSeconds_ok (w : wav_fmt) (d : Nat) (h8 : 8 ≤ w.nBitsPerSample)
    (hc : 1 ≤ w.wChannels) (hr : 1 ≤ w.dwSamplesPerSec) :
    calcSeconds w d = .ok (((d / (w.nBitsPerSample / 8)) / w.wChannels) / w.dwSamplesPerSec) := by
  have hb : ¬ w.nBitsPerSample / 8 = 0 := by omega
  have hc0 : ¬ w.wChannels = 0 := by omega
  have hr0 : ¬ w.dwSamplesPerSec = 0 := by omega
  simp only [calcSeconds, if_neg hb, if_neg hc0, if_neg hr0]

/-- C1: on a minimal PCM file ("RIFF", size, "WAVE", a 16-byte `fmt ` chunk with format
tag 1, a `data` chunk whose `n` payload bytes are present) with `bps >= 8`, `ch >= 1` and
`rate >= 1`, `main` returns 0 with the cursor at the end of the file, has recorded exactly
the file's channels, sample rate, bits per sample and data length, and prints the duration
`((n / (bps / 8)) / ch) / rate` in floor division. -/
theorem main_minimalPcmFile (riffSize ch rate avg align bps n : Nat) (payload : List Byte)
    (init : State)
    (hriff : riffSize < 2 ^ 32) (hch : ch < 2 ^ 16) (hrate : rate < 2 ^ 32)
    (havg : avg < 2 ^ 32) (halign : align < 2 ^ 16) (hbps : bps < 2 ^ 16) (hn : n < 2 ^ 32)
    (hlen : payload.length = n) (hid : init.tempHeader.id.length = 4)
    (h8 : 8 ≤ bps) (hc1 : 1 ≤ ch) (hr1 : 1 ≤ rate) :
    main (minimalPcmFile riffSize ch rate avg align bps n payload) init =
      some (.ok
        { code := 0,
          st := { wavFd := { data := minimalPcmFile riffSize ch rate avg align bps n payload,
                             pos := 44 + n },
                  tempHeader := { id := DATA, size := n },
                  wavFmtInfo := ⟨1, ch, rate, avg, align, bps⟩,
                  riffListInfo := init.riffListInfo, dataLength := n,
                  subtype := init.subtype },
          seconds := some (((n / (bps / 8)) / ch) / rate) }) := by
  have hT1 : readHeaderTest
      { data := minimalPcmFile riffSize ch rate avg align bps n payload, pos := 0 }
      init.tempHeader RIFF =
      { ret := 0, header := { id := RIFF, size := riffSize },
        fd := { data := minimalPcmFile riffSize ch rate avg align bps n payload, pos := 8 } } :=
    readHeaderTest_of_next _ _ RIFF riffSize rfl hriff hid
      (minimalPcmFile_next0 _ _ _ _ _ _ _ _) (by simp [RIFF])
  have hT2 : readHeaderTest
      { data := minimalPcmFile riffSize ch rate avg align bps n payload, pos := 8 }
      { id := RIFF, size := riffSize } WAVE =
      { ret := 0, header := { id := WAVE, size := 544501094 },
        fd := { data := minimalPcmFile riffSize ch rate avg align bps n payload, pos := 16 } } :=
    readHeaderTest_of_next _ _ WAVE 544501094 rfl (by norm_num) rfl
      (by rw [minimalPcmFile_next8]; rfl) (by simp [WAVE])
  have hseek : lseek
      { data := minimalPcmFile riffSize ch rate avg align bps n payload, pos := 16 } (-4) =
      { data := minimalPcmFile riffSize ch rate avg align bps n payload, pos := 12 } := by
    simp [lseek]
  have hL := chunkLoop_minimalPcmFile riffSize ch rate avg align bps n payload
    { id := WAVE, size := 544501094 } init.wavFmtInfo init.riffListInfo init.dataLength
    init.subtype hch hrate havg halign hbps hn hlen rfl
  exact main_of_walk _ init _ _ _ _ _ _ hT1 hT2 (by rw [hseek]; exact hL)
    (calcSeconds_ok ⟨1, ch, rate, avg, align, bps⟩ n h8 hc1 hr1)

/-- C1 on one second of 16-bit stereo audio at 44100 Hz: 176400 data bytes give the
duration 1. -/
theorem main_minimalPcmFile_witness :
    main (minimalPcmFile 176436 2 44100 176400 4 16 176400 (List.replicate 176400 0))
        { wavFd := { data := [], pos := 0 }, tempHeader := { id := [0, 0, 0, 0], size := 0 },
          wavFmtInfo := ⟨0, 0, 0, 0, 0, 0⟩, riffListInfo := ⟨List.replicate 256 0⟩,
          dataLength := 0, subtype := [0, 0, 0, 0] } =
      some (.ok
        { code := 0,
          st := { wavFd := { data := minimalPcmFile 176436 2 44100 176400 4 16 176400
                               (List.replicate 176400 0),
                             pos := 176444 },
                  tempHeader := { id := DATA, size := 176400 },
                  wavFmtInfo := ⟨1, 2, 44100, 176400, 4, 16⟩,
                  riffListInfo := ⟨List.replicate 256 0⟩, dataLength := 176400,
                  subtype := [0, 0, 0, 0] },
          seconds := some 1 }) :=
  main_minimalPcmFile 176436 2 44100 176400 4 16 176400 (List.replicate 176400 0) _
    (by norm_num) (by norm_num) (by norm_num) (by norm_num) (by norm_num) (by norm_num)
    (by norm_num) (List.length_replicate _ _) rfl (by norm_num) (by norm_num) (by norm_num)

/-! ## The duration, `strCleanZeros`, and the data segment -/

theorem calcSeconds_zero_divisor (w : wav_fmt) (d : Nat)
    (h : w.nBitsPerSample < 8 ∨ w.wChannels = 0 ∨ w.dwSamplesPerSec = 0) :
    calcSeconds w d = .error .divByZero := by
  simp only [calcSeconds]
  by_cases hb : w.nBitsPerSample / 8 = 0
  · rw [if_pos hb]
  · rw [if_neg hb]
    by_cases hc : w.wChannels = 0
    · rw [if_pos hc]
    · rw [if_neg hc]
      by_cases hr : w.dwSamplesPerSec = 0
      · rw [if_pos hr]
      · exfalso
        rcases h with h | h | h
        · exact hb (by omega)
        · exact hc h
        · exact hr h

/-- C19: with `nBitsPerSample >= 8`, `wChannels >= 1` and `dwSamplesPerSec >= 1` no divisor
of the duration is zero and the three nested floor divisions equal the one floor division
by the unbounded product `(bits / 8) * channels * rate`; with `nBitsPerSample < 8`,
`wChannels = 0` or `dwSamplesPerSec = 0` a divisor is zero. -/
theorem calcSeconds_single_division (w : wav_fmt) (d : Nat) (h8 : 8 ≤ w.nBitsPerSample)
    (hc : 1 ≤ w.wChannels) (hr : 1 ≤ w.dwSamplesPerSec) :
    w.nBitsPerSample / 8 ≠ 0 ∧ w.wChannels ≠ 0 ∧ w.dwSamplesPerSec ≠ 0 ∧
    calcSeconds w d =
      .ok (d / ((w.nBitsPerSample / 8) * w.wChannels * w.dwSamplesPerSec)) ∧
    (∀ (w1 : wav_fmt) (d1 : Nat),
      (w1.nBitsPerSample < 8 ∨ w1.wChannels = 0 ∨ w1.dwSamplesPerSec = 0) →
      (w1.nBitsPerSample / 8 = 0 ∨ w1.wChannels = 0 ∨ w1.dwSamplesPerSec = 0) ∧
      calcSeconds w1 d1 = .error .divByZero) := by
  refine ⟨by omega, by omega, by omega, ?_, ?_⟩
  · rw [calcSeconds_ok w d h8 hc hr, Nat.div_div_eq_div_mul, Nat.div_div_eq_div_mul,
      Nat.mul_assoc]
  · intro w1 d1 h
    refine ⟨?_, calcSeconds_zero_divisor w1 d1 h⟩
    rcases h with h | h | h
    · exact Or.inl (by omega)
    · exact Or.inr (Or.inl h)
    · exact Or.inr (Or.inr h)

/-- C19 on 16-bit stereo at 44100 Hz with 176400 data bytes: one division by 176400. -/
theorem calcSeconds_single_division_witness :
    calcSeconds ⟨1, 2, 44100, 176400, 4, 16⟩ 176400 = .ok (176400 / (16 / 8 * 2 * 44100)) :=
  (calcSeconds_single_division ⟨1, 2, 44100, 176400, 4, 16⟩ 176400 (by decide) (by decide)
    (by decide)).2.2.2.1

theorem getElem?_map_take_append_drop (str : List Byte) (len i : Nat) (h : len ≤ str.length) :
    ((str.take len).map cleanZero ++ str.drop len)[i]? =
      if i < len then (str[i]?).map cleanZero else str[i]? := by
  have hl : ((str.take len).map cleanZero).length = len := by simp [h]
  by_cases hi : i < len
  · rw [if_pos hi, List.getElem?_append_left (by rw [hl]; exact hi), List.getElem?_map,
      List.getElem?_take_of_lt hi]
  · rw [if_neg hi, List.getElem?_append_right (by rw [hl]; omega), hl, List.getElem?_drop]
    congr 1
    omega

theorem cleanZero_idem (c : Byte) : cleanZero (cleanZero c) = cleanZero c := by
  unfold cleanZero
  by_cases h : c = 0
  · simp [h]
  · simp [h]

/-- C17: for `len` within the buffer, `strCleanZeros` keeps the buffer's length, turns a
NUL at a position below `len` into a space and leaves every other position as it was,
gives the same buffer when run again, and leaves no NUL below `len`. -/
theorem strCleanZeros_spec (str : List Byte) (len : Nat) (h : len ≤ str.length) :
    ∃ out, strCleanZeros str len = some out ∧ out.length = str.length ∧
      (∀ (i : Nat) (c : Byte), str[i]? = some c →
        out[i]? = some (if i < len ∧ c = 0 then 32 else c)) ∧
      strCleanZeros out len = some out ∧
      (∀ i, i < len → out[i]? ≠ some 0) := by
  have hl : ((str.take len).map cleanZero).length = len := by simp [h]
  refine ⟨(str.take len).map cleanZero ++ str.drop len, strCleanZeros_eq str len h, ?_, ?_, ?_, ?_⟩
  · rw [List.length_append, hl, List.length_drop]
    omega
  · intro i c hc
    rw [getElem?_map_take_append_drop str len i h, hc]
    by_cases hi : i < len
    · by_cases h0 : c = 0
      · simp [hi, h0, cleanZero]
      · simp [hi, h0, cleanZero]
    · simp [hi]
  · rw [strCleanZeros_eq _ len (by rw [List.length_append, hl]; omega)]
    have ht : ((str.take len).map cleanZero ++ str.drop len).take len =
        (str.take len).map cleanZero := List.take_left' hl
    have hd : ((str.take len).map cleanZero ++ str.drop len).drop len = str.drop len :=
      List.drop_left' hl
    rw [ht, hd, List.map_map]
    congr 2
    apply List.map_congr_left
    intro c _
    exact cleanZero_idem c
  · intro i hi hz
    rw [getElem?_map_take_append_drop str len i h, if_pos hi] at hz
    cases hs : str[i]? with
    | none => rw [hs] at hz; cases hz
    | some c =>
      rw [hs] at hz
      simp only [Option.map_some', Option.some.injEq] at hz
      exact cleanZero_ne_zero c hz

/-- C17 on a 5-byte buffer cleaned over its first 3 positions. -/
theorem strCleanZeros_spec_witness :
    ∃ out, strCleanZeros [65, 0, 66, 0, 0] 3 = some out ∧ out.length = 5 ∧
      (∀ (i : Nat) (c : Byte), ([65, 0, 66, 0, 0] : List Byte)[i]? = some c →
        out[i]? = some (if i < 3 ∧ c = 0 then 32 else c)) ∧
      strCleanZeros out 3 = some out ∧
      (∀ i, i < 3 → out[i]? ≠ some 0) :=
  strCleanZeros_spec [65, 0, 66, 0, 0] 3 (by decide)

theorem processDataSegment_eq (fd : Fd) (header : riff_header) (d : Nat) :
    processDataSegment fd header d =
      { ret := 0, dataLength := header.size, fd := { fd with pos := fd.pos + header.size } } := by
  simp only [processDataSegment, lseek_forward]

/-- C12: for a `data` header of declared size `n` whose `n` payload bytes are present,
`processDataSegment` returns 0, sets the data length to `n` and moves the cursor forward by
exactly `n`, to the first byte after the payload, without changing the stream; a stream
that differs only in the payload gives the same data length and the same cursor. -/
theorem processDataSegment_payload_independent (pre p1 p2 post : List Byte)
    (header : riff_header) (d1 d2 : Nat)
    (h1 : p1.length = header.size) (h2 : p2.length = header.size) :
    processDataSegment { data := pre ++ p1 ++ post, pos := pre.length } header d1 =
      { ret := 0, dataLength := header.size,
        fd := { data := pre ++ p1 ++ post, pos := pre.length + header.size } } ∧
    (pre ++ p1 ++ post).drop (pre.length + header.size) = post ∧
    (pre ++ p2 ++ post).drop (pre.length + header.size) = post ∧
    (processDataSegment { data := pre ++ p2 ++ post, pos := pre.length } header d2).dataLength =
      (processDataSegment { data := pre ++ p1 ++ post, pos := pre.length } header d1).dataLength ∧
    (processDataSegment { data := pre ++ p2 ++ post, pos := pre.length } header d2).fd.pos =
      (processDataSegment { data := pre ++ p1 ++ post, pos := pre.length } header d1).fd.pos := by
  refine ⟨processDataSegment_eq _ _ _, ?_, ?_, ?_, ?_⟩
  · have hl : (pre ++ p1).length = pre.length + header.size := by
      rw [List.length_append, h1]
    rw [← hl, List.drop_left]
  · have hl : (pre ++ p2).length = pre.length + header.size := by
      rw [List.length_append, h2]
    rw [← hl, List.drop_left]
  · simp only [processDataSegment_eq]
  · simp only [processDataSegment_eq]

/-- C12 on two `data` chunks of declared size 4 with different payloads. -/
theorem processDataSegment_payload_independent_witness :
    (processDataSegment { data := (DATA ++ toLE 4 4) ++ [9, 9, 9, 9] ++ FMT, pos := 8 }
        { id := DATA, size := 4 } 0).fd.pos =
      (processDataSegment { data := (DATA ++ toLE 4 4) ++ [1, 2, 3, 4] ++ FMT, pos := 8 }
        { id := DATA, size := 4 } 7).fd.pos :=
  (processDataSegment_payload_independent (DATA ++ toLE 4 4) [1, 2, 3, 4] [9, 9, 9, 9] FMT
    { id := DATA, size := 4 } 7 0 rfl rfl).2.2.2.2

/-- C13 (counterexample): with 3 bytes left and a declared size of 1000,
`processDataSegment` returns 0 with the cursor at offset 1000, past the end of the
stream. -/
theorem processDataSegment_past_end_example :
    processDataSegment { data := [1, 2, 3], pos := 0 } { id := DATA, size := 1000 } 0 =
      { ret := 0, dataLength := 1000, fd := { data := [1, 2, 3], pos := 1000 } } := by
  decide

/-- C13 (amended): when the declared size exceeds the bytes remaining,
`processDataSegment` still returns 0 and records the declared size; the cursor moves by
the declared size, past the end of the stream and not clamped to it, and the `readHeader`
that follows fails without consuming anything. -/
theorem processDataSegment_past_end (fd : Fd) (header : riff_header) (d : Nat)
    (h : fd.data.length < fd.pos + header.size) :
    (processDataSegment fd header d).ret = 0 ∧
    (processDataSegment fd header d).dataLength = header.size ∧
    (processDataSegment fd header d).fd = { fd with pos := fd.pos + header.size } ∧
    fd.data.length < (processDataSegment fd header d).fd.pos ∧
    readHeader (processDataSegment fd header d).fd header =
      { ret := -2, header := header, fd := (processDataSegment fd header d).fd } := by
  rw [processDataSegment_eq]
  refine ⟨rfl, rfl, rfl, h, ?_⟩
  exact readHeader_eof _ _ (by simp only; omega)

/-- C13 (amended) on a stream with 3 bytes left and a declared size of 1000. -/
theorem processDataSegment_past_end_witness :
    (processDataSegment { data := [1, 2, 3], pos := 0 } { id := DATA, size := 1000 } 0).fd =
      { data := [1, 2, 3], pos := 1000 } :=
  (processDataSegment_past_end { data := [1, 2, 3], pos := 0 } { id := DATA, size := 1000 } 0
    (by decide)).2.2.1

/-! ## The format segment for other format tags -/

theorem processFmtSegment_keeps_bits (fd : Fd) (header : riff_header) (w : wav_fmt)
    (h : (processFmtSegment fd header w).wavFmtInfo.wFormatTag ≠ MS_PMC_TAG) :
    (processFmtSegment fd header w).wavFmtInfo.nBitsPerSample = w.nBitsPerSample := by
  simp only [processFmtSegment] at h ⊢
  split
  · rename_i h1
    rw [if_pos h1] at h
    exact absurd h1 h
  · rfl

/-- C11 (counterexample): a format chunk with tag 3 read into a `wav_fmt` whose
`nBitsPerSample` holds 16 or 8 from before leaves that value in the field, and the
duration for 176400 data bytes is computed from it: 1 second in one case, 2 in the other. -/
theorem processFmtSegment_tag3_stale_bits :
    (processFmtSegment
        { data := toLE 2 3 ++ toLE 2 2 ++ toLE 4 44100 ++ toLE 4 352800 ++ toLE 2 8 ++ toLE 2 32,
          pos := 0 }
        { id := FMT, size := 16 } ⟨0, 0, 0, 0, 0, 16⟩).wavFmtInfo = ⟨3, 2, 44100, 352800, 8, 16⟩ ∧
    (processFmtSegment
        { data := toLE 2 3 ++ toLE 2 2 ++ toLE 4 44100 ++ toLE 4 352800 ++ toLE 2 8 ++ toLE 2 32,
          pos := 0 }
        { id := FMT, size := 16 } ⟨0, 0, 0, 0, 0, 8⟩).wavFmtInfo = ⟨3, 2, 44100, 352800, 8, 8⟩ ∧
    calcSeconds ⟨3, 2, 44100, 352800, 8, 16⟩ 176400 = .ok 1 ∧
    calcSeconds ⟨3, 2, 44100, 352800, 8, 8⟩ 176400 = .ok 2 := by
  refine ⟨by decide, by decide, rfl, rfl⟩

/-- C11 (amended): when the format tag that `processFmtSegment` decoded is not 1, bytes
14-15 are not read and `nBitsPerSample` keeps the value it held before the call; the struct
has no marker for an absent field. -/
theorem processFmtSegment_non_pcm (fd : Fd) (header : riff_header) (w : wav_fmt)
    (h : (processFmtSegment fd header w).wavFmtInfo.wFormatTag ≠ MS_PMC_TAG) :
    (processFmtSegment fd header w).wavFmtInfo.nBitsPerSample = w.nBitsPerSample ∧
    (fd.pos + 16 ≤ fd.data.length →
      (processFmtSegment fd header w).fd = { fd with pos := fd.pos + 14 }) := by
  refine ⟨processFmtSegment_keeps_bits fd header w h, fun h16 => ?_⟩
  rw [processFmtSegment_full fd header w h16] at h ⊢
  simp only [MS_PMC_TAG] at h
  simp only [if_neg h]

/-- C11 (amended) on a format chunk with tag 3 and a field that held 16 before. -/
theorem processFmtSegment_non_pcm_witness :
    (processFmtSegment
        { data := toLE 2 3 ++ toLE 2 2 ++ toLE 4 44100 ++ toLE 4 352800 ++ toLE 2 8 ++ toLE 2 32,
          pos := 0 }
        { id := FMT, size := 16 } ⟨0, 0, 0, 0, 0, 16⟩).wavFmtInfo.nBitsPerSample = 16 :=
  (processFmtSegment_non_pcm _ _ _ (by decide)).1

/-! ## Segments that are not consumed to their declared boundary -/

/-- A LIST segment whose four subtype bytes are present and are not "INFO": only those
four bytes are consumed and the list information is left as it was. -/
theorem processLISTSegment_other (fd : Fd) (header : riff_header) (li : riff_list_info)
    (subtype : List Byte) (h4 : fd.pos + 4 ≤ fd.data.length) (hsub : fd.next 4 ≠ INFO) :
    processLISTSegment fd header li subtype =
      .ok { ret := 0, riffListInfo := li, fd := { fd with pos := fd.pos + 4 } } := by
  have hl : (fd.next 4).length = 4 := next_length_of_le fd 4 h4
  have hcmp : ¬ strncmp (fd.next 4 ++ subtype.drop 4) INFO 4 = 0 := by
    intro e
    apply hsub
    have := (strncmp_INFO _).mp e
    rwa [List.take_left' hl] at this
  simp only [processLISTSegment, read_full fd _ 4 h4, if_neg hcmp]

/-- C14 (the code departs from the claim): for a LIST chunk of declared size 8 with the
subtype "adtl", followed by a `data` chunk, the loop body leaves the list information
unchanged but leaves the cursor 4 bytes after the body start, not 8; the next `readHeader`
takes the rest of the LIST body as a tag and the bytes "data" as a size. -/
theorem dispatch_list_adtl_stops_short :
    dispatch
        { wavFd := { data := LIST ++ toLE 4 8 ++ [97, 100, 116, 108] ++ [1, 2, 3, 4] ++ DATA ++
                       toLE 4 1000,
                     pos := 8 },
          tempHeader := { id := LIST, size := 8 }, wavFmtInfo := ⟨1, 2, 44100, 176400, 4, 16⟩,
          riffListInfo := ⟨List.replicate 256 0⟩, dataLength := 7, subtype := [0, 0, 0, 0] } =
      .ok
        { wavFd := { data := LIST ++ toLE 4 8 ++ [97, 100, 116, 108] ++ [1, 2, 3, 4] ++ DATA ++
                       toLE 4 1000,
                     pos := 12 },
          tempHeader := { id := LIST, size := 8 }, wavFmtInfo := ⟨1, 2, 44100, 176400, 4, 16⟩,
          riffListInfo := ⟨List.replicate 256 0⟩, dataLength := 7, subtype := [0, 0, 0, 0] } ∧
    readHeader
        { data := LIST ++ toLE 4 8 ++ [97, 100, 116, 108] ++ [1, 2, 3, 4] ++ DATA ++ toLE 4 1000,
          pos := 12 }
        { id := LIST, size := 8 } =
      { ret := 0, header := { id := [1, 2, 3, 4], size := 1635017060 },
        fd := { data := LIST ++ toLE 4 8 ++ [97, 100, 116, 108] ++ [1, 2, 3, 4] ++ DATA ++
                  toLE 4 1000,
                pos := 20 } } := by
  refine ⟨rfl, by decide⟩

/-- C16 (the code departs from the claim): for a `fmt ` chunk of declared size 18 (the 16
PCM bytes and a 2-byte extension size) followed by a `data` chunk of 4 bytes, the loop body
leaves the cursor at body start + 16, two bytes before the chunk boundary; the next
`readHeader` is made there and reads the tag 00 00 'd' 'a', and the loop ends without having
seen the `data` chunk: the data length is still the 7 it held before. -/
theorem dispatch_fmt_size_18_stops_short :
    dispatch
        { wavFd := { data := FMT ++ toLE 4 18 ++ toLE 2 1 ++ toLE 2 2 ++ toLE 4 44100 ++
                       toLE 4 176400 ++ toLE 2 4 ++ toLE 2 16 ++ toLE 2 0 ++ DATA ++ toLE 4 4 ++
                       [1, 2, 3, 4],
                     pos := 8 },
          tempHeader := { id := FMT, size := 18 }, wavFmtInfo := ⟨0, 0, 0, 0, 0, 0⟩,
          riffListInfo := ⟨[]⟩, dataLength := 7, subtype := [0, 0, 0, 0] } =
      .ok
        { wavFd := { data := FMT ++ toLE 4 18 ++ toLE 2 1 ++ toLE 2 2 ++ toLE 4 44100 ++
                       toLE 4 176400 ++ toLE 2 4 ++ toLE 2 16 ++ toLE 2 0 ++ DATA ++ toLE 4 4 ++
                       [1, 2, 3, 4],
                     pos := 24 },
          tempHeader := { id := FMT, size := 18 }, wavFmtInfo := ⟨1, 2, 44100, 176400, 4, 16⟩,
          riffListInfo := ⟨[]⟩, dataLength := 7, subtype := [0, 0, 0, 0] } ∧
    chunkLoop
        { wavFd := { data := FMT ++ toLE 4 18 ++ toLE 2 1 ++ toLE 2 2 ++ toLE 4 44100 ++
                       toLE 4 176400 ++ toLE 2 4 ++ toLE 2 16 ++ toLE 2 0 ++ DATA ++ toLE 4 4 ++
                       [1, 2, 3, 4],
                     pos := 0 },
          tempHeader := { id := WAVE, size := 0 }, wavFmtInfo := ⟨0, 0, 0, 0, 0, 0⟩,
          riffListInfo := ⟨[]⟩, dataLength := 7, subtype := [0, 0, 0, 0] } =
      some (.ok
        { wavFd := { data := FMT ++ toLE 4 18 ++ toLE 2 1 ++ toLE 2 2 ++ toLE 4 44100 ++
                       toLE 4 176400 ++ toLE 2 4 ++ toLE 2 16 ++ toLE 2 0 ++ DATA ++ toLE 4 4 ++
                       [1, 2, 3, 4],
                     pos := 287124 },
          tempHeader := { id := [0, 0, 100, 97], size := 287092 },
          wavFmtInfo := ⟨1, 2, 44100, 176400, 4, 16⟩,
          riffListInfo := ⟨[]⟩, dataLength := 7, subtype := [0, 0, 0, 0] }) := by
  refine ⟨rfl, rfl⟩

/-! ## The form-type check -/

/-- With its 8 bytes present a header is read whole, whatever the header object held. -/
theorem readHeader_ret_of_full (fd : Fd) (header : riff_header)
    (h : fd.pos + 8 ≤ fd.data.length) :
    (readHeader fd header).ret = 0 ∧
    (readHeader fd header).fd = { fd with pos := fd.pos + 8 } ∧
    (readHeader fd header).header.id.take 4 = fd.next 4 := by
  have h1 : fd.pos + 4 ≤ fd.data.length := by omega
  have hl : (fd.next 4).length = 4 := next_length_of_le fd 4 h1
  simp only [readHeader, HEAD_ID_LEN, HEAD_SIZE_LEN, read_full fd _ 4 h1]
  rw [readUInt_full _ _ 4 (by simpa using (by omega : fd.pos + 4 + 4 ≤ fd.data.length))]
  simp [Nat.add_assoc, List.take_left' hl]

theorem lseek_back_four (data : List Byte) (p : Nat) :
    lseek { data := data, pos := p + 8 } (-4) = { data := data, pos := p + 4 } := by
  have h : ¬ (((p + 8 : Nat) : Int) + (-4) < 0) := by omega
  simp only [lseek, if_neg h]
  congr 1
  omega

theorem checkWaveByHeader_full (fd : Fd) (header : riff_header)
    (h : fd.pos + 8 ≤ fd.data.length) :
    checkWaveByHeader fd header =
      if fd.next 4 = WAVE then { accepted := true, fd := { fd with pos := fd.pos + 4 } }
      else { accepted := false, fd := { fd with pos := fd.pos + 8 } } := by
  obtain ⟨hret, hfd, hid⟩ := readHeader_ret_of_full fd header h
  have hT := readHeaderTest_fd fd header WAVE
  have hz := readHeaderTest_ret_zero_iff fd header WAVE rfl (by simp [WAVE])
  rw [hid] at hz
  unfold checkWaveByHeader
  by_cases hw : fd.next 4 = WAVE
  · have h0 : (readHeaderTest fd header WAVE).ret = 0 := hz.mpr ⟨hret, hw⟩
    rw [if_pos hw]
    simp only [h0, hT.1, hfd]
    rw [lseek_back_four]
    rfl
  · have h1 : (readHeaderTest fd header WAVE).ret = -1 := by
      rcases readHeaderTest_ret fd header WAVE with h0 | h1
      · exact absurd (hz.mp h0).2 hw
      · exact h1
    rw [if_neg hw]
    simp only [h1, hT.1, hfd]
    rfl

theorem checkWaveDirect_full (fd : Fd) (h : fd.pos + 4 ≤ fd.data.length) :
    checkWaveDirect fd =
      { accepted := decide (fd.next 4 = WAVE), fd := { fd with pos := fd.pos + 4 } } := by
  simp [checkWaveDirect, read_full fd _ 4 h]

/-- C15 (counterexample): a 12-byte file that ends right after "WAVE" is accepted by the
direct 4-byte check and rejected by the check of `main`; on a 13-byte file both accept,
but `main` leaves the cursor at offset 9 and the direct check at offset 12. -/
theorem checkWave_differ_on_short_files :
    (checkWaveDirect { data := RIFF ++ toLE 4 4 ++ WAVE, pos := 8 }).accepted = true ∧
    (checkWaveByHeader { data := RIFF ++ toLE 4 4 ++ WAVE, pos := 8 }
        { id := RIFF, size := 4 }).accepted = false ∧
    checkWaveDirect { data := RIFF ++ toLE 4 5 ++ WAVE ++ [102], pos := 8 } =
      { accepted := true, fd := { data := RIFF ++ toLE 4 5 ++ WAVE ++ [102], pos := 12 } } ∧
    checkWaveByHeader { data := RIFF ++ toLE 4 5 ++ WAVE ++ [102], pos := 8 }
        { id := RIFF, size := 5 } =
      { accepted := true, fd := { data := RIFF ++ toLE 4 5 ++ WAVE ++ [102], pos := 9 } } := by
  decide

/-- C15 (amended): for a stream positioned at offset 8 that holds at least 16 bytes, the
check of `main` (`readHeaderTest` for "WAVE", then a 4-byte backward seek) and the direct
check (read 4 bytes, require "WAVE") accept the same streams, and on acceptance both leave
the same descriptor with the cursor at offset 12. -/
theorem checkWave_equiv (fd : Fd) (header : riff_header) (hpos : fd.pos = 8)
    (h16 : 16 ≤ fd.data.length) :
    (checkWaveByHeader fd header).accepted = (checkWaveDirect fd).accepted ∧
    ((checkWaveDirect fd).accepted = true →
      (checkWaveByHeader fd header).fd = (checkWaveDirect fd).fd ∧
      (checkWaveByHeader fd header).fd.pos = 12) := by
  rw [checkWaveByHeader_full fd header (by omega), checkWaveDirect_full fd (by omega)]
  by_cases hw : fd.next 4 = WAVE
  · simp [hw, hpos]
  · simp [hw]

/-- C15 (amended) on a 16-byte file: both checks accept and stop at offset 12. -/
theorem checkWave_equiv_witness :
    (checkWaveByHeader { data := RIFF ++ toLE 4 8 ++ WAVE ++ DATA, pos := 8 }
        { id := RIFF, size := 8 }).accepted =
      (checkWaveDirect { data := RIFF ++ toLE 4 8 ++ WAVE ++ DATA, pos := 8 }).accepted :=
  (checkWave_equiv { data := RIFF ++ toLE 4 8 ++ WAVE ++ DATA, pos := 8 }
    { id := RIFF, size := 8 } rfl (by decide)).1

/-! ## Termination of the chunk loop -/

theorem readUInt_fd (fd : Fd) (old w : Nat) :
    (readUInt fd old w).fd.data = fd.data ∧ fd.pos ≤ (readUInt fd old w).fd.pos := by
  simp [readUInt, read]

set_option maxRecDepth 100000 in
/-- On a LIST/INFO chunk of declared size 260 followed by a `data` chunk, the loop body
reaches the store outside `name`; followed past it, with the 256 bytes transferred into
`name` and the other objects of `main` left as they were, the loop goes on to the `data`
chunk and ends at the end of the file. -/
theorem chunkLoopPast_after_overflow :
    chunkLoop
        { wavFd := { data := LIST ++ toLE 4 260 ++ INFO ++ List.replicate 256 65 ++ DATA ++
                       toLE 4 4 ++ [1, 2, 3, 4],
                     pos := 0 },
          tempHeader := { id := WAVE, size := 0 }, wavFmtInfo := ⟨1, 2, 44100, 176400, 4, 16⟩,
          riffListInfo := ⟨List.replicate 256 0⟩, dataLength := 7, subtype := [0, 0, 0, 0] } =
      some (.error (.outOfBounds 256)) ∧
    chunkLoopPast
        { objects := fun s => { s with riffListInfo := ⟨List.replicate 256 65⟩ },
          transferred := fun _ => 256 }
        { wavFd := { data := LIST ++ toLE 4 260 ++ INFO ++ List.replicate 256 65 ++ DATA ++
                       toLE 4 4 ++ [1, 2, 3, 4],
                     pos := 0 },
          tempHeader := { id := WAVE, size := 0 }, wavFmtInfo := ⟨1, 2, 44100, 176400, 4, 16⟩,
          riffListInfo := ⟨List.replicate 256 0⟩, dataLength := 7, subtype := [0, 0, 0, 0] } =
      some
        { wavFd := { data := LIST ++ toLE 4 260 ++ INFO ++ List.replicate 256 65 ++ DATA ++
                       toLE 4 4 ++ [1, 2, 3, 4],
                     pos := 280 },
          tempHeader := { id := DATA, size := 4 }, wavFmtInfo := ⟨1, 2, 44100, 176400, 4, 16⟩,
          riffListInfo := ⟨List.replicate 256 65⟩, dataLength := 4, subtype := [0, 0, 0, 0] } := by
  refine ⟨rfl, rfl⟩

end WavReader
